import Mathlib

/-!
# SimpleToolkit — verification of the support-lookup engine and path converter

Shallow embedding of the core logic of the `laobamac/SimpleToolkit` repository
(`Scripts/gui_get_hw_info.py`, `Scripts/get_hw_info.py`,
`Scripts/gui_edit_hw_support_info.py`, `Scripts/gui_pci_path_converter.py`,
`Scripts/gui_acpi_exp.py`).  Strings are modelled as `List Char`; the Python
string operations used by those scripts (`strip`, `split`, `upper`, `lower`,
`startswith`, `endswith`, `in`, slicing) are reproduced as executable list
functions below.  `str.strip()` is modelled on the ASCII whitespace characters;
`str.upper()` / `str.lower()` on the ASCII letter ranges (the repository only
ever handles ASCII identifiers plus CJK literals, which both agree on).
-/

namespace SimpleToolkit

/-- Python strings, modelled as lists of characters. -/
abbrev Str := List Char

/-- Coerce a Lean string literal into the `Str` model. -/
def str (x : String) : Str := x.data

/-! ## Python string primitives -/

/-- ASCII whitespace, as stripped by Python `str.strip()`. -/
def isWS (c : Char) : Bool :=
  c = ' ' || c = '\t' || c = '\n' || c = '\r' || c = '\x0b' || c = '\x0c'

/-- Remove leading whitespace (`str.lstrip()`). -/
def stripLeft (l : Str) : Str := l.dropWhile isWS

/-- Remove trailing whitespace (`str.rstrip()`). -/
def stripRight (l : Str) : Str := (l.reverse.dropWhile isWS).reverse

/-- Python `str.strip()`. -/
def pyStrip (l : Str) : Str := stripRight (stripLeft l)

/-- Python `str.upper()` on the ASCII range. -/
def upChar (c : Char) : Char :=
  if 'a' ≤ c ∧ c ≤ 'z' then Char.ofNat (c.toNat - 32) else c

/-- Python `str.lower()` on the ASCII range. -/
def lowChar (c : Char) : Char :=
  if 'A' ≤ c ∧ c ≤ 'Z' then Char.ofNat (c.toNat + 32) else c

def pyUpper (l : Str) : Str := l.map upChar

def pyLower (l : Str) : Str := l.map lowChar

/-- Split at the first occurrence of `c`: Python `s.split(c, 1)` when `c`
occurs; `none` models the single-element result when it does not. -/
def splitAtChar (c : Char) : Str → Option (Str × Str)
  | [] => none
  | a :: rest =>
    if a = c then some ([], rest)
    else match splitAtChar c rest with
      | some (p, q) => some (a :: p, q)
      | none => none

/-- Worker for `pySplit`: `acc` holds the current piece reversed. -/
def pySplitAux (c : Char) : Str → Str → List Str
  | acc, [] => [acc.reverse]
  | acc, a :: rest =>
    if a = c then acc.reverse :: pySplitAux c [] rest
    else pySplitAux c (a :: acc) rest

/-- Python `s.split(c)` (full split, keeping empty pieces). -/
def pySplit (c : Char) (l : Str) : List Str := pySplitAux c [] l

/-- Normalize `\r\n` and bare `\r` to `\n`, as Python `str.splitlines`
treats them as line terminators. -/
def normNL : Str → Str
  | [] => []
  | ['\r'] => ['\n']
  | '\r' :: c2 :: rest =>
    if c2 = '\n' then '\n' :: normNL rest else '\n' :: normNL (c2 :: rest)
  | c :: rest => c :: normNL rest

/-- Python `str.splitlines()` (modulo a trailing empty piece, which every
consumer in the repository skips as a blank line). -/
def splitLines (t : Str) : List Str := pySplit '\n' (normNL t)

/-- Join with `\n` (Python `"\n".join`). -/
def joinNL : List Str → Str
  | [] => []
  | [l] => l
  | l :: rest => l ++ '\n' :: joinNL rest

/-- Python `suffix in s` / `s.endswith(suffix)` companion: list suffix test. -/
def strEndsWith (l suf : Str) : Bool := List.isPrefixOf suf.reverse l.reverse

/-- Python `sub in s` (substring containment). -/
def strIn (sub : Str) : Str → Bool
  | [] => List.isPrefixOf sub []
  | a :: rest => List.isPrefixOf sub (a :: rest) || strIn sub rest

/-- First element of a string equals `c` (Python `s.startswith(c)` for a
single-character prefix). -/
def headIs (c : Char) : Str → Bool
  | [] => false
  | a :: _ => a = c

/-- The character class `[0-9A-Fa-f]` used by the scripts' regexes. -/
def isHexDig (c : Char) : Bool :=
  c.isDigit || ('a' ≤ c && c ≤ 'f') || ('A' ≤ c && c ≤ 'F')

/-- Python `s[:n]`. -/
def pyTake (n : Nat) (l : Str) : Str := l.take n

/-- Python `s[n:]`. -/
def pyDrop (n : Nat) (l : Str) : Str := l.drop n

/-- Python `s[:-n]` (drop the last `n` characters). -/
def dropEnd (n : Nat) (l : Str) : Str := l.take (l.length - n)

/-! ## Ordered dictionaries (Python `dict`) -/

/-- Insertion-ordered string dictionary, as Python `dict[str, str]`. -/
abbrev Dict := List (Str × Str)

/-- `d[k]` lookup returning `none` when absent. -/
def dGet (d : Dict) (k : Str) : Option Str :=
  match d.find? (fun p => p.1 = k) with
  | some p => some p.2
  | none => none

/-- Python `d.get(k, default)`. -/
def dGetD (d : Dict) (k : Str) (dflt : Str) : Str :=
  match dGet d k with
  | some v => v
  | none => dflt

/-- Python `k in d`. -/
def dHas (d : Dict) (k : Str) : Bool := (dGet d k).isSome

/-- Python `d[k] = v`: update in place, or append preserving insertion
order. -/
def dSet (d : Dict) (k v : Str) : Dict :=
  if dHas d k then d.map (fun p => if p.1 = k then (p.1, v) else p)
  else d ++ [(k, v)]

/-! ## SupportDatabase: lenient loader
(`gui_get_hw_info.py:565-586 HardwareInfoGUI.load_support_info`; the
module-level `load_support_info` in `get_hw_info.py:53-72` is line-for-line
the same parsing logic and is embedded by this single definition). -/

/-- The three parallel maps built by the loader: status, detail (`.info`),
and required driver (`.kext`). -/
structure SupportMaps where
  support : Dict
  details : Dict
  kext : Dict
deriving DecidableEq, Repr

def emptyMaps : SupportMaps := ⟨[], [], []⟩

/-- One iteration of the loader's `for line in f` loop. -/
def loadLine (m : SupportMaps) (rawLine : Str) : SupportMaps :=
  let line := pyStrip rawLine
  if line ≠ [] ∧ line.contains '=' then
    match splitAtChar '=' line with
    | none => m
    | some (key, value) =>
      if strEndsWith key (str ".info") then
        { m with details := dSet m.details (pyUpper (dropEnd 5 key)) value }
      else if strEndsWith key (str ".kext") then
        { m with kext := dSet m.kext (pyUpper (dropEnd 5 key)) value }
      else
        { m with support := dSet m.support (pyUpper key) value }
  else m

def load_support_info (content : Str) : SupportMaps :=
  (splitLines content).foldl loadLine emptyMaps

/-! ## MatchResolver
(`gui_get_hw_info.py:478-553 HardwareInfoGUI.get_support_info_with_multimatch`). -/

inductive MatchKind | exact | fuzzy | wildcard
deriving DecidableEq, Repr

/-- The 5-tuple returned by `get_support_info_with_multimatch`:
`(status, id, detail, kext, match_type)`.  Python `None` for the status and
for the match type is modelled by `Option`. -/
structure MatchTuple where
  status : Option Str
  ident : Str
  detail : Str
  kext : Str
  kind : Option MatchKind
deriving DecidableEq, Repr

/-- `get_support_info_with_multimatch`.  The `none` result models the
uncaught `ValueError` raised by `ven_id, dev_id = device_id_or_name.split('&')`
when the query holds more than one `&`; every normal return is `some`. -/
def get_support_info_with_multimatch (device_id_or_name : Str)
    (support_info details_info kext_info : Dict) (is_hdd : Bool) :
    Option MatchTuple :=
  if is_hdd then
    -- name-keyed branch: match by model string
    let device_name := pyUpper device_id_or_name
    -- 1. exact: the full upper-cased name is itself a key
    match dGet support_info device_name with
    | some status =>
      some ⟨some status, device_name, dGetD details_info device_name (str "未知"),
           dGetD kext_info device_name (str "无"), some .exact⟩
    | none =>
      -- 2. fuzzy: keys starting with '*' whose suffix occurs in the name
      match support_info.find? (fun p =>
          headIs '*' p.1 && strIn (pyUpper (pyDrop 1 p.1)) device_name) with
      | some p =>
        some ⟨some p.2, device_name,
             dGetD details_info p.1 (str "支持(" ++ p.1 ++ str ")"),
             dGetD kext_info p.1 (str "无"), some .fuzzy⟩
      | none =>
        -- 3. wildcard: non-'*' keys occurring in the name
        match support_info.find? (fun p =>
            !headIs '*' p.1 && strIn (pyUpper p.1) device_name) with
        | some p =>
          some ⟨some p.2, device_name,
               dGetD details_info p.1 (str "支持(" ++ p.1 ++ str ")"),
               dGetD kext_info p.1 (str "无"), some .wildcard⟩
        | none => some ⟨none, device_name, str "未知", str "无", none⟩
  else
    -- ID-keyed branch
    if device_id_or_name = [] ∨ ¬ device_id_or_name.contains '&' then
      some ⟨none, if device_id_or_name = [] then str "N/A" else device_id_or_name,
           str "未知", str "无", none⟩
    else
      match pySplit '&' device_id_or_name with
      | [ven_id, dev_id] =>
        -- 1. exact match
        match dGet support_info device_id_or_name with
        | some status =>
          some ⟨some status, device_id_or_name,
               dGetD details_info device_id_or_name (str "未知"),
               dGetD kext_info device_id_or_name (str "无"), some .exact⟩
        | none =>
          -- 2. fuzzy match: low byte wildcarded to FF
          let fuzzy_id := ven_id ++ '&' :: pyTake 2 dev_id ++ str "FF"
          match dGet support_info fuzzy_id with
          | some status =>
            some ⟨some status, device_id_or_name,
                 dGetD details_info fuzzy_id (str "未知(模糊匹配)"),
                 dGetD kext_info fuzzy_id (str "无"), some .fuzzy⟩
          | none =>
            -- 3. vendor wildcard match
            let wildcard_id := ven_id ++ str "&FFFF"
            match dGet support_info wildcard_id with
            | some status =>
              some ⟨some status, device_id_or_name,
                   dGetD details_info wildcard_id (str "未知(厂商通用支持)"),
                   dGetD kext_info wildcard_id (str "无"), some .wildcard⟩
            | none => some ⟨none, device_id_or_name, str "未知", str "无", none⟩
      | _ => none

/-! ## ListFileValidator
(`gui_edit_hw_support_info.py:30-83` and `356-382`). -/

/-- `re.match(r'^[0-9A-Fa-f]{4}&[0-9A-Fa-f]{4}$', key)`. -/
def idShape (k : Str) : Bool :=
  k.length = 9 && (pyTake 4 k).all isHexDig &&
    k.get? 4 = some '&' && (pyDrop 5 k).all isHexDig

def msgNoEq : Str := str "缺少等号分隔符"
def msgBadIdStem : Str := str "无效设备ID格式"
def msgEmptyStatus : Str := str "状态值不能为空"
def msgBadStatus : Str := str "状态值必须是0或1"

/-- `ListFileValidator.is_valid_entry`. -/
def is_valid_entry (rawLine : Str) : Bool × Str :=
  let line := pyStrip rawLine
  if line = [] ∨ headIs '#' line then (true, [])
  else if ¬ line.contains '=' then (false, msgNoEq)
  else
    match splitAtChar '=' line with
    | none => (true, [])
    | some (k0, v0) =>
      let key := pyStrip k0
      let value := pyStrip v0
      if ¬ (strEndsWith key (str ".info") ∨ strEndsWith key (str ".kext")) then
        if ¬ idShape key then (false, msgBadIdStem ++ str ": " ++ key)
        else if value = [] then (false, msgEmptyStatus)
        else if value ≠ str "0" ∧ value ≠ str "1" then (false, msgBadStatus)
        else (true, [])
      else (true, [])

/-- The substring test `validate_file_content` applies to decide whether an
error line is repairable. -/
def repairCond (msg : Str) : Bool :=
  strIn msgBadIdStem msg || strIn msgBadStatus msg || strIn msgNoEq msg

/-- `validate_file_content`, with the error report kept structured as
`(1-based line number, message, stripped line)`; the source renders each
triple into the single string `f"第{i}行: {msg} - {line}"`. -/
def validateLines : Nat → List Str → List (Nat × Str × Str) × List Str
  | _, [] => ([], [])
  | i, l :: rest =>
    let (errs, reps) := validateLines (i + 1) rest
    let ls := pyStrip l
    if ls = [] then (errs, reps)
    else
      match is_valid_entry ls with
      | (true, _) => (errs, reps)
      | (false, msg) =>
        ((i, msg, ls) :: errs, if repairCond msg then ls :: reps else reps)

def validate_file_content (content : Str) : List (Nat × Str × Str) × List Str :=
  validateLines 1 (splitLines content)

/-! ## Structured editor records
(`ListFileValidator.parse_file`, `generate_file_content`). -/

/-- One structured record of the editor: main status, `.info` detail,
`.kext` driver, each possibly absent. -/
structure DRec where
  main : Option Str
  info : Option Str
  kext : Option Str
deriving DecidableEq, Repr

def emptyRec : DRec := ⟨none, none, none⟩

abbrev Entries := List (Str × DRec)

def hasKeyE (es : Entries) (k : Str) : Bool := es.any (fun p => p.1 = k)

def updEntry (es : Entries) (k : Str) (f : DRec → DRec) : Entries :=
  es.map (fun p => if p.1 = k then (p.1, f p.2) else p)

/-- One iteration of `parse_file`'s line loop. -/
def parseStep (es : Entries) (rawLine : Str) : Entries :=
  let line := pyStrip rawLine
  if line = [] ∨ ¬ line.contains '=' then es
  else
    match splitAtChar '=' line with
    | none => es
    | some (k0, v0) =>
      let key := pyStrip k0
      let value := pyStrip v0
      let base := key.takeWhile (fun c => c ≠ '.')
      let es1 := if hasKeyE es base then es else es ++ [(base, emptyRec)]
      let vOpt := if value = [] then none else some value
      if strEndsWith key (str ".info") then
        updEntry es1 base (fun r => { r with info := vOpt })
      else if strEndsWith key (str ".kext") then
        updEntry es1 base (fun r => { r with kext := vOpt })
      else
        updEntry es1 base (fun r => { r with main := vOpt })

def parse_file (content : Str) : Entries :=
  (splitLines content).foldl parseStep []

/-- The lines `generate_file_content` emits for one record, in the fixed
order main, `.info`, `.kext`, skipping absent fields. -/
def recLines (p : Str × DRec) : List Str :=
  (p.2.main.toList.map (fun m => p.1 ++ '=' :: m)) ++
  (p.2.info.toList.map (fun i => p.1 ++ str ".info=" ++ i)) ++
  (p.2.kext.toList.map (fun x => p.1 ++ str ".kext=" ++ x))

def generate_file_content (es : Entries) : Str :=
  joinNL (es.map recLines).flatten

/-! ## PathConverter (`gui_pci_path_converter.py:27-74`). -/

/-- Hex digit value. -/
def hexDigitVal (c : Char) : Nat :=
  if c.isDigit then c.toNat - '0'.toNat
  else if 'a' ≤ c ∧ c ≤ 'f' then c.toNat - 'a'.toNat + 10
  else c.toNat - 'A'.toNat + 10

/-- Python `int(s, 16)` on a non-empty all-hex string; `none` models the
`ValueError` otherwise. -/
def parseHex (l : Str) : Option Nat :=
  if l ≠ [] ∧ l.all isHexDig then
    some (l.foldl (fun acc c => acc * 16 + hexDigitVal c) 0)
  else none

/-- Python `int(s)` on a non-empty all-decimal-digit string; `none` models
the `ValueError` otherwise. -/
def parseDec (l : Str) : Option Nat :=
  if l ≠ [] ∧ l.all Char.isDigit then
    some (l.foldl (fun acc c => acc * 10 + (c.toNat - '0'.toNat)) 0)
  else none

/-- Uppercase hex digits of `n` (Python `f"{n:X}"`). -/
def natToHex (n : Nat) : Str := (Nat.toDigits 16 n).map upChar

/-- Python `f"{n:d}"`. -/
def natToDec (n : Nat) : Str := Nat.toDigits 10 n

/-- Python `f"{n:02d}"`: decimal, zero-padded to at least two digits. -/
def natToDecPad2 (n : Nat) : Str :=
  let d := natToDec n
  if d.length < 2 then List.replicate (2 - d.length) '0' ++ d else d

/-- One `#`-separated part of `convert_windows_to_dp`. -/
def winPartToDp (part : Str) : Option Str :=
  if List.isPrefixOf (str "PCIROOT(") part then
    -- num = part[8:-1]
    match parseDec (dropEnd 1 (pyDrop 8 part)) with
    | some n => some (str "PciRoot(0x" ++ natToHex n ++ str ")")
    | none => none
  else if List.isPrefixOf (str "PCI(") part then
    let hexStr := dropEnd 1 (pyDrop 4 part)
    if hexStr.length ≠ 4 then none
    else
      match parseHex (pyTake 2 hexStr), parseHex (pyDrop 2 hexStr) with
      | some dev, some func =>
        some (str "Pci(0x" ++ natToHex dev ++ str ",0x" ++ natToHex func ++ str ")")
      | _, _ => none
  else none

/-- `convert_windows_to_dp`; `none` models a raised `ValueError`. -/
def convert_windows_to_dp (windows_path : Str) : Option Str :=
  match (pySplit '#' windows_path).mapM winPartToDp with
  | some parts => some (joinWith '/' parts)
  | none => none
where
  joinWith (c : Char) : List Str → Str
    | [] => []
    | [l] => l
    | l :: rest => l ++ c :: joinWith c rest

/-- Prefix-anchored `re.match(r"PciRoot\(0x([0-9A-Fa-f]+)\)", part)`:
the greedy hex group followed by `)`. -/
def matchHexGroupParen (rest : Str) : Option (Nat × Str) :=
  let digs := rest.takeWhile isHexDig
  let after := rest.drop digs.length
  match parseHex digs, after with
  | some n, ')' :: tail => some (n, tail)
  | _, _ => none

/-- One `/`-separated part of `convert_dp_to_windows`. -/
def dpPartToWin (part : Str) : Option Str :=
  if List.isPrefixOf (str "PciRoot(") part then
    match matchHexGroupParen (pyDrop 10 part) with
    | some (n, _) =>
      if List.isPrefixOf (str "PciRoot(0x") part then
        some (str "PCIROOT(" ++ natToDec n ++ str ")")
      else none
    | none => none
  else if List.isPrefixOf (str "Pci(") part then
    if List.isPrefixOf (str "Pci(0x") part then
      let rest := pyDrop 6 part
      let digs1 := rest.takeWhile isHexDig
      let after1 := rest.drop digs1.length
      match parseHex digs1, after1 with
      | some dev, ',' :: after2 =>
        if List.isPrefixOf (str "0x") after2 then
          match matchHexGroupParen (pyDrop 2 after2) with
          | some (func, _) =>
            some (str "PCI(" ++ natToDecPad2 dev ++ natToDecPad2 func ++ str ")")
          | none => none
        else none
      | _, _ => none
    else none
  else none

/-- `convert_dp_to_windows`; `none` models a raised `ValueError`. -/
def convert_dp_to_windows (dp_path : Str) : Option Str :=
  match (pySplit '/' dp_path).mapM dpPartToWin with
  | some parts => some (convert_windows_to_dp.joinWith '#' parts)
  | none => none

/-! ## SSDTBuilder (`gui_acpi_exp.py:43-60` and `127-130`). -/

/-- `SSDTBuilder.validate_device_id`: `re.match(r'^[0-9a-fA-F]{4}$', ...)`.
Python's `$` (without `re.MULTILINE`) matches at the end of the string and
also just before one newline at the end of the string, so the regex accepts
exactly: four hex digits, or four hex digits followed by a single `'\n'`. -/
def validate_device_id (device_id : Str) : Bool :=
  (device_id.length = 4 && device_id.all isHexDig) ||
  (device_id.length = 5 && (pyTake 4 device_id).all isHexDig &&
    device_id.getLast? = some '\n')

/-- The byte-order split of `build_gpu_spoof_ssdt` (lines 127-130), gated by
`validate_device_id` as in the source; the pair is `(high byte literal,
low byte literal)` and `none` models the early `return False`. -/
def splitBytesForSplice (device_id : Str) : Option (Str × Str) :=
  if validate_device_id device_id then
    let d := pyStrip (pyLower device_id)
    some (str "0x" ++ pyDrop 2 d, str "0x" ++ pyTake 2 d)
  else none

/-- Value of a `0x`-prefixed hex literal, for reading the splice output. -/
def hexLiteralVal (l : Str) : Option Nat := parseHex (pyDrop 2 l)

/-! ## Predicates used by the verification lemmas -/

/-- The first character, when present, is not whitespace. -/
def headNW (l : Str) : Prop := ∀ c, l.head? = some c → isWS c = false

/-- The last character, when present, is not whitespace. -/
def lastNW (l : Str) : Prop := ∀ c, l.getLast? = some c → isWS c = false

def entKeys (es : Entries) : List Str := es.map (fun p => p.1)

/-- A value as stored by `parse_file`: non-empty, strip-fixed, line-break-free. -/
def goodVal (v : Str) : Prop :=
  v ≠ [] ∧ pyStrip v = v ∧ ('\n' : Char) ∉ v ∧ ('\r' : Char) ∉ v

def goodOptVal : Option Str → Prop
  | none => True
  | some v => goodVal v

/-- A base key as computed by `parse_file`: free of `.`, `=` and line breaks,
with no leading whitespace. -/
def goodKeyLoose (k : Str) : Prop :=
  ('.' : Char) ∉ k ∧ ('=' : Char) ∉ k ∧ ('\n' : Char) ∉ k ∧ ('\r' : Char) ∉ k ∧
    stripLeft k = k

def goodRec (r : DRec) : Prop :=
  goodOptVal r.main ∧ goodOptVal r.info ∧ goodOptVal r.kext

/-- Records that survive serialization: those with at least one present field. -/
def filterNE (es : Entries) : Entries := es.filter (fun p => p.2 ≠ emptyRec)

/-- The invariant maintained by `parse_file` over its fold. -/
def entInv (es : Entries) : Prop :=
  (entKeys es).Nodup ∧ ∀ p ∈ es, goodKeyLoose p.1 ∧ goodRec p.2

/-- Every key in every map of the loader's state is upper-case-fixed. -/
def mapsUpper (m : SupportMaps) : Prop :=
  (∀ p ∈ m.support, pyUpper p.1 = p.1) ∧ (∀ p ∈ m.details, pyUpper p.1 = p.1) ∧
    (∀ p ∈ m.kext, pyUpper p.1 = p.1)


/-! ## Character lemmas -/

theorem charOfNat_toNat (n : Nat) (h : n.isValidChar) : (Char.ofNat n).toNat = n := by
  unfold Char.ofNat
  rw [dif_pos h]
  unfold Char.ofNatAux Char.toNat
  simp [UInt32.toNat, BitVec.toNat_ofNatLt]

theorem upChar_toNat_of_lower {c : Char} (h : 'a' ≤ c ∧ c ≤ 'z') :
    (upChar c).toNat = c.toNat - 32 := by
  have h1 : (97 : Nat) ≤ c.toNat := h.1
  have h2 : c.toNat ≤ (122 : Nat) := h.2
  rw [upChar, if_pos h]
  apply charOfNat_toNat
  left
  omega

theorem upChar_not_lower (c : Char) : ¬ ('a' ≤ upChar c ∧ upChar c ≤ 'z') := by
  by_cases h : 'a' ≤ c ∧ c ≤ 'z'
  · intro hcon
    have hv := upChar_toNat_of_lower h
    have h1 : (97 : Nat) ≤ (upChar c).toNat := hcon.1
    have h2 : c.toNat ≤ (122 : Nat) := h.2
    have h3 : (97 : Nat) ≤ c.toNat := h.1
    omega
  · rw [upChar, if_neg h]
    exact h

theorem upChar_upChar (c : Char) : upChar (upChar c) = upChar c := by
  conv_lhs => rw [upChar]
  rw [if_neg (upChar_not_lower c)]

theorem pyUpper_pyUpper (l : Str) : pyUpper (pyUpper l) = pyUpper l := by
  simp only [pyUpper, List.map_map]
  exact List.map_congr_left (fun c _ => upChar_upChar c)

/-! ## Prefix / suffix / membership lemmas -/

theorem isPrefixOf_append_self (a b : Str) : List.isPrefixOf a (a ++ b) = true := by
  induction a with
  | nil => simp [List.isPrefixOf]
  | cons x xs ih => simpa [List.isPrefixOf] using ih

theorem mem_of_isPrefixOf {a b : Str} (h : List.isPrefixOf a b = true) :
    ∀ x ∈ a, x ∈ b := by
  induction a generalizing b with
  | nil => simp
  | cons p ps ih =>
    cases b with
    | nil => simp [List.isPrefixOf] at h
    | cons q qs =>
      simp only [List.isPrefixOf, Bool.and_eq_true, beq_iff_eq] at h
      intro x hx
      rcases List.mem_cons.mp hx with rfl | hx
      · simp [h.1]
      · exact List.mem_cons_of_mem _ (ih h.2 x hx)

theorem strEndsWith_append (k suf : Str) : strEndsWith (k ++ suf) suf = true := by
  simp only [strEndsWith, List.reverse_append]
  exact isPrefixOf_append_self _ _

theorem mem_of_strEndsWith {l suf : Str} (h : strEndsWith l suf = true) :
    ∀ x ∈ suf, x ∈ l := by
  intro x hx
  have := mem_of_isPrefixOf h x (List.mem_reverse.mpr hx)
  exact List.mem_reverse.mp this

theorem strEndsWith_false_of_not_mem {l suf : Str} {c : Char}
    (hc : c ∈ suf) (hl : c ∉ l) : strEndsWith l suf = false := by
  by_contra hcon
  rw [Bool.not_eq_false] at hcon
  exact hl (mem_of_strEndsWith hcon c hc)

theorem takeWhile_eq_self_of_not_mem {k : Str} {c : Char} (h : c ∉ k) :
    k.takeWhile (fun x => x ≠ c) = k := by
  induction k with
  | nil => rfl
  | cons a t ih =>
    have ha : a ≠ c := fun hac => h (hac ▸ List.mem_cons_self a t)
    simp only [List.takeWhile_cons]
    rw [if_pos (by simp [ha])]
    rw [ih (fun hm => h (List.mem_cons_of_mem a hm))]

theorem strContains_iff {l : Str} {c : Char} : l.contains c = true ↔ c ∈ l := by
  simp [List.contains]

/-! ## splitAtChar / pySplit lemmas -/

theorem splitAtChar_of_not_mem {c : Char} {l : Str} (h : c ∉ l) :
    splitAtChar c l = none := by
  induction l with
  | nil => rfl
  | cons a t ih =>
    have ha : a ≠ c := fun hac => h (hac ▸ List.mem_cons_self a t)
    simp only [splitAtChar, if_neg ha]
    rw [ih (fun hm => h (List.mem_cons_of_mem a hm))]

theorem splitAtChar_append_cons {c : Char} {v d : Str} (h : c ∉ v) :
    splitAtChar c (v ++ c :: d) = some (v, d) := by
  induction v with
  | nil => simp [splitAtChar]
  | cons a t ih =>
    have ha : a ≠ c := fun hac => h (hac ▸ List.mem_cons_self a t)
    simp only [List.cons_append, splitAtChar, if_neg ha, List.append_eq]
    rw [ih (fun hm => h (List.mem_cons_of_mem a hm))]

theorem splitAtChar_eq_some {c : Char} :
    ∀ {l p q : Str}, splitAtChar c l = some (p, q) → l = p ++ c :: q ∧ c ∉ p := by
  intro l
  induction l with
  | nil => intro p q h; simp [splitAtChar] at h
  | cons a t ih =>
    intro p q h
    simp only [splitAtChar] at h
    split at h
    · rename_i hac
      simp only [Option.some.injEq, Prod.mk.injEq] at h
      constructor
      · rw [← h.1, ← h.2, hac]; rfl
      · rw [← h.1]; exact List.not_mem_nil c
    · rename_i hac
      cases hsp : splitAtChar c t with
      | none => rw [hsp] at h; simp at h
      | some pq =>
        rw [hsp] at h
        simp only [Option.some.injEq, Prod.mk.injEq] at h
        obtain ⟨hp, hq⟩ := h
        obtain ⟨ht, hnp⟩ := ih (p := pq.1) (q := pq.2) (by rw [hsp])
        constructor
        · rw [← hp, ← hq, List.cons_append, ← ht]
        · rw [← hp]
          intro hm
          rcases List.mem_cons.mp hm with hh | hh
          · exact hac hh.symm
          · exact hnp hh

theorem splitAtChar_none_of_eq_none {c : Char} {l : Str}
    (h : splitAtChar c l = none) : c ∉ l := by
  intro hm
  induction l with
  | nil => simp at hm
  | cons a t ih =>
    simp only [splitAtChar] at h
    split at h
    · simp at h
    · rename_i hac
      cases hsp : splitAtChar c t with
      | none =>
        rcases List.mem_cons.mp hm with hh | hh
        · exact hac hh.symm
        · exact ih (by rw [hsp]) hh
      | some pq => rw [hsp] at h; simp at h

theorem pySplitAux_of_not_mem {c : Char} {l : Str} (h : c ∉ l) :
    ∀ acc, pySplitAux c acc l = [acc.reverse ++ l] := by
  induction l with
  | nil => intro acc; simp [pySplitAux]
  | cons a t ih =>
    intro acc
    have ha : a ≠ c := fun hac => h (hac ▸ List.mem_cons_self a t)
    simp only [pySplitAux, if_neg ha]
    rw [ih (fun hm => h (List.mem_cons_of_mem a hm))]
    simp

theorem pySplitAux_append_cons {c : Char} {v d : Str} (hv : c ∉ v) :
    ∀ acc, pySplitAux c acc (v ++ c :: d) = (acc.reverse ++ v) :: pySplitAux c [] d := by
  induction v with
  | nil => intro acc; simp [pySplitAux]
  | cons a t ih =>
    intro acc
    have ha : a ≠ c := fun hac => hv (hac ▸ List.mem_cons_self a t)
    simp only [List.cons_append, pySplitAux, if_neg ha, List.append_eq]
    rw [ih (fun hm => hv (List.mem_cons_of_mem a hm))]
    simp

theorem pySplit_pair {c : Char} {v d : Str} (hv : c ∉ v) (hd : c ∉ d) :
    pySplit c (v ++ c :: d) = [v, d] := by
  rw [pySplit, pySplitAux_append_cons hv, pySplitAux_of_not_mem hd]
  simp

theorem pySplit_of_not_mem {c : Char} {l : Str} (h : c ∉ l) : pySplit c l = [l] := by
  rw [pySplit, pySplitAux_of_not_mem h]
  simp

theorem mem_pySplitAux_subset {c : Char} :
    ∀ {l acc piece : Str}, piece ∈ pySplitAux c acc l →
      ∀ x ∈ piece, x ∈ acc ∨ x ∈ l := by
  intro l
  induction l with
  | nil =>
    intro acc piece hp x hx
    simp only [pySplitAux, List.mem_singleton] at hp
    subst hp
    exact Or.inl (List.mem_reverse.mp hx)
  | cons a t ih =>
    intro acc piece hp x hx
    simp only [pySplitAux] at hp
    split at hp
    · rcases List.mem_cons.mp hp with rfl | hp
      · exact Or.inl (List.mem_reverse.mp hx)
      · rcases ih hp x hx with hh | hh
        · simp at hh
        · exact Or.inr (List.mem_cons_of_mem a hh)
    · rcases ih hp x hx with hh | hh
      · rcases List.mem_cons.mp hh with rfl | hh
        · exact Or.inr (List.mem_cons_self _ _)
        · exact Or.inl hh
      · exact Or.inr (List.mem_cons_of_mem a hh)

theorem mem_pySplit_subset {c : Char} {l piece : Str} (hp : piece ∈ pySplit c l) :
    ∀ x ∈ piece, x ∈ l := by
  intro x hx
  rcases mem_pySplitAux_subset hp x hx with hh | hh
  · simp at hh
  · exact hh

theorem not_c_mem_pySplitAux {c : Char} :
    ∀ {l acc piece : Str}, piece ∈ pySplitAux c acc l → c ∉ acc → c ∉ piece := by
  intro l
  induction l with
  | nil =>
    intro acc piece hp hacc
    simp only [pySplitAux, List.mem_singleton] at hp
    subst hp
    intro hm
    exact hacc (List.mem_reverse.mp hm)
  | cons a t ih =>
    intro acc piece hp hacc
    simp only [pySplitAux] at hp
    split at hp
    · rcases List.mem_cons.mp hp with rfl | hp
      · intro hm
        exact hacc (List.mem_reverse.mp hm)
      · exact ih hp (List.not_mem_nil c)
    · rename_i hac
      refine ih hp ?_
      intro hm
      rcases List.mem_cons.mp hm with hh | hh
      · exact hac (hh ▸ rfl)
      · exact hacc hh

theorem not_c_mem_pySplit {c : Char} {l piece : Str} (hp : piece ∈ pySplit c l) :
    c ∉ piece :=
  not_c_mem_pySplitAux hp (List.not_mem_nil c)

/-! ## normNL / splitLines / joinNL lemmas -/

theorem normNL_nil : normNL [] = [] := rfl

theorem normNL_single_cr : normNL ['\r'] = ['\n'] := rfl

theorem normNL_crlf (rest : Str) : normNL ('\r' :: '\n' :: rest) = '\n' :: normNL rest := rfl

theorem normNL_cr_cons {c2 : Char} (h : c2 ≠ '\n') (rest : Str) :
    normNL ('\r' :: c2 :: rest) = '\n' :: normNL (c2 :: rest) := by
  rw [normNL]
  exact if_neg h

theorem normNL_cons {c : Char} (h : c ≠ '\r') (rest : Str) :
    normNL (c :: rest) = c :: normNL rest := by
  cases rest with
  | nil => rw [normNL.eq_def]; simp [h]
  | cons b r2 => rw [normNL.eq_def]; simp [h]

theorem normNL_eq_self {t : Str} (h : '\r' ∉ t) : normNL t = t := by
  induction t with
  | nil => rfl
  | cons a rest ih =>
    have ha : a ≠ '\r' := fun hh => h (hh ▸ List.mem_cons_self a rest)
    have hr : '\r' ∉ rest := fun hm => h (List.mem_cons_of_mem a hm)
    rw [normNL_cons ha, ih hr]

theorem not_cr_mem_normNL : ∀ (t : Str), '\r' ∉ normNL t := by
  intro t
  induction t using normNL.induct with
  | case1 => rw [normNL_nil]; exact List.not_mem_nil _
  | case2 =>
    rw [normNL_single_cr]
    intro hm
    rcases List.mem_cons.mp hm with hh | hh
    · exact absurd hh (by decide)
    · simp at hh
  | case3 rest ih =>
    rw [normNL_crlf]
    intro hm
    rcases List.mem_cons.mp hm with hh | hh
    · exact absurd hh (by decide)
    · exact ih hh
  | case4 c2 rest hnl ih =>
    rw [normNL_cr_cons hnl]
    intro hm
    rcases List.mem_cons.mp hm with hh | hh
    · exact absurd hh (by decide)
    · exact ih hh
  | case5 c rest hc1 hc2 ih =>
    have hcr : c ≠ '\r' := by
      intro hcc
      cases rest with
      | nil => exact hc1 hcc rfl
      | cons b r2 => exact hc2 b r2 hcc rfl
    rw [normNL_cons hcr]
    intro hm
    rcases List.mem_cons.mp hm with hh | hh
    · exact hcr hh.symm
    · exact ih hh

theorem splitLines_no_nl {t piece : Str} (hp : piece ∈ splitLines t) :
    '\n' ∉ piece ∧ '\r' ∉ piece := by
  constructor
  · exact not_c_mem_pySplit hp
  · intro hm
    exact not_cr_mem_normNL t (mem_pySplit_subset hp '\r' hm)

theorem joinNL_no_cr {lines : List Str} (h : ∀ l ∈ lines, '\r' ∉ l) :
    '\r' ∉ joinNL lines := by
  induction lines with
  | nil => simp [joinNL]
  | cons a rest ih =>
    cases rest with
    | nil => simpa [joinNL] using h a (List.mem_cons_self _ _)
    | cons b rest2 =>
      simp only [joinNL]
      intro hm
      rcases List.mem_append.mp hm with hh | hh
      · exact h a (List.mem_cons_self _ _) hh
      · rcases List.mem_cons.mp hh with hh2 | hh2
        · exact absurd hh2 (by decide)
        · exact ih (fun l hl => h l (List.mem_cons_of_mem a hl)) hh2

theorem splitLines_joinNL {lines : List Str} (hne : lines ≠ [])
    (h : ∀ l ∈ lines, '\n' ∉ l ∧ '\r' ∉ l) :
    splitLines (joinNL lines) = lines := by
  rw [splitLines, normNL_eq_self (joinNL_no_cr (fun l hl => (h l hl).2))]
  induction lines with
  | nil => exact absurd rfl hne
  | cons a rest ih =>
    cases rest with
    | nil =>
      simp only [joinNL]
      rw [pySplit_of_not_mem (h a (List.mem_cons_self _ _)).1]
    | cons b rest2 =>
      simp only [joinNL]
      rw [show (a ++ '\n' :: joinNL (b :: rest2)) = a ++ '\n' :: joinNL (b :: rest2) from rfl]
      rw [pySplit] at *
      rw [pySplitAux_append_cons (h a (List.mem_cons_self _ _)).1]
      simp only [List.reverse_nil, List.nil_append, List.cons.injEq, true_and]
      exact ih (by simp) (fun l hl => h l (List.mem_cons_of_mem a hl))

/-! ## Fixed points of stripping -/

theorem dropWhile_isWS_idem (l : Str) :
    (l.dropWhile isWS).dropWhile isWS = l.dropWhile isWS := by
  induction l with
  | nil => rfl
  | cons a t ih =>
    by_cases ha : isWS a = true
    · simp only [List.dropWhile_cons, ha, if_true]
      exact ih
    · simp only [List.dropWhile_cons, ha, if_false]
      simp only [Bool.not_eq_true] at ha
      simp [List.dropWhile_cons, ha]

theorem stripLeft_eq_self_iff {l : Str} : stripLeft l = l ↔ headNW l := by
  cases l with
  | nil =>
    simp only [stripLeft, List.dropWhile_nil]
    constructor
    · intro _ c hc; simp at hc
    · intro _; trivial
  | cons a t =>
    constructor
    · intro h c hc
      simp only [List.head?_cons, Option.some.injEq] at hc
      subst hc
      by_contra hws
      rw [Bool.not_eq_false] at hws
      rw [stripLeft, List.dropWhile_cons, if_pos hws] at h
      have : (t.dropWhile isWS).length ≤ t.length := (List.dropWhile_suffix isWS).sublist.length_le
      have h2 := congrArg List.length h
      simp only [List.length_cons] at h2
      omega
    · intro h
      have ha := h a (by simp)
      rw [stripLeft, List.dropWhile_cons, ha]
      simp

theorem stripLeft_idem (l : Str) : stripLeft (stripLeft l) = stripLeft l :=
  dropWhile_isWS_idem l

theorem headNW_stripLeft (l : Str) : headNW (stripLeft l) :=
  stripLeft_eq_self_iff.mp (stripLeft_idem l)

theorem stripRight_eq_self_iff {l : Str} : stripRight l = l ↔ lastNW l := by
  have hrev : stripRight l = l ↔ stripLeft l.reverse = l.reverse := by
    constructor
    · intro h
      have := congrArg List.reverse h
      rwa [stripRight, List.reverse_reverse] at this
    · intro h
      rw [stripRight]
      show (stripLeft l.reverse).reverse = l
      rw [h, List.reverse_reverse]
  rw [hrev, stripLeft_eq_self_iff]
  constructor
  · intro h c hc
    exact h c (by rwa [List.head?_reverse])
  · intro h c hc
    exact h c (by rwa [List.head?_reverse] at hc)

theorem stripRight_idem (l : Str) : stripRight (stripRight l) = stripRight l := by
  simp only [stripRight, List.reverse_reverse]
  rw [dropWhile_isWS_idem]

theorem lastNW_stripRight (l : Str) : lastNW (stripRight l) :=
  stripRight_eq_self_iff.mp (stripRight_idem l)

theorem stripLeft_suffix (l : Str) : stripLeft l <:+ l := List.dropWhile_suffix isWS

theorem stripRight_front (l : Str) : stripRight l <+: l := by
  have h := List.dropWhile_suffix (l := l.reverse) isWS
  rw [show l.reverse.dropWhile isWS = (stripRight l).reverse by
        rw [stripRight, List.reverse_reverse]] at h
  exact (List.reverse_suffix).mp h

theorem headNW_of_front {a l : Str} (h : a <+: l) (hn : headNW l) : headNW a := by
  obtain ⟨t, rfl⟩ := h
  intro c hc
  cases a with
  | nil => simp at hc
  | cons x xs =>
    simp only [List.head?_cons, Option.some.injEq] at hc
    exact hn c (by simp [hc])

theorem lastNW_of_suffix {a l : Str} (h : a <:+ l) (hn : lastNW l) : lastNW a := by
  obtain ⟨t, rfl⟩ := h
  intro c hc
  cases ha : a.getLast? with
  | none => rw [ha] at hc; exact absurd hc (by simp)
  | some d =>
    rw [ha] at hc
    have hane : a ≠ [] := by
      intro hnil
      rw [hnil] at ha
      simp at ha
    refine hn c ?_
    rw [List.getLast?_append_of_ne_nil _ hane, ha, hc]

theorem pyStrip_length_le (l : Str) : (pyStrip l).length ≤ l.length := by
  have h1 := (stripLeft_suffix l).sublist.length_le
  have h2 := (stripRight_front (stripLeft l)).sublist.length_le
  exact le_trans h2 h1

theorem pyStrip_eq_self_iff {l : Str} : pyStrip l = l ↔ headNW l ∧ lastNW l := by
  constructor
  · intro h
    have h1 := (stripLeft_suffix l).sublist
    have h2 := (stripRight_front (stripLeft l)).sublist
    have hlen := congrArg List.length h
    have hl1 := h1.length_le
    have hl2 := h2.length_le
    rw [pyStrip] at hlen
    have hSL : stripLeft l = l := h1.eq_of_length (by omega)
    have hSR : stripRight l = l := by
      rw [pyStrip, hSL] at h
      exact h
    exact ⟨stripLeft_eq_self_iff.mp hSL, stripRight_eq_self_iff.mp hSR⟩
  · intro ⟨h1, h2⟩
    rw [pyStrip, stripLeft_eq_self_iff.mpr h1, stripRight_eq_self_iff.mpr h2]

theorem pyStrip_idem (l : Str) : pyStrip (pyStrip l) = pyStrip l := by
  apply pyStrip_eq_self_iff.mpr
  constructor
  · exact headNW_of_front (stripRight_front _) (headNW_stripLeft l)
  · exact lastNW_stripRight _

theorem pyStrip_sublist (l : Str) : (pyStrip l).Sublist l :=
  ((stripRight_front (stripLeft l)).sublist).trans (stripLeft_suffix l).sublist

theorem mem_of_mem_pyStrip {l : Str} {x : Char} (h : x ∈ pyStrip l) : x ∈ l :=
  (pyStrip_sublist l).mem h

theorem headNW_append {a b : Str} (ha : headNW a) (hb : a = [] → headNW b) :
    headNW (a ++ b) := by
  cases a with
  | nil => simpa using hb rfl
  | cons x xs =>
    intro c hc
    simp only [List.cons_append, List.head?_cons, Option.some.injEq] at hc
    exact ha c (by simp [hc])

theorem lastNW_append {a b : Str} (hb : lastNW b) (hne : b ≠ []) :
    lastNW (a ++ b) := by
  intro c hc
  rw [List.getLast?_append_of_ne_nil _ hne] at hc
  exact hb c hc

theorem lastNW_cons {c : Char} {v : Str} (hc : isWS c = false) (hv : lastNW v) :
    lastNW (c :: v) := by
  cases v with
  | nil =>
    intro d hd
    simp only [List.getLast?_singleton, Option.some.injEq] at hd
    rwa [← hd]
  | cons b bs =>
    intro d hd
    rw [List.getLast?_cons_cons] at hd
    exact hv d hd

theorem headNW_pyStrip (l : Str) : headNW (pyStrip l) :=
  (pyStrip_eq_self_iff.mp (pyStrip_idem l)).1

theorem lastNW_pyStrip (l : Str) : lastNW (pyStrip l) :=
  (pyStrip_eq_self_iff.mp (pyStrip_idem l)).2

/-! ## takeWhile and misc list lemmas -/

theorem takeWhile_mem_ne {k : Str} {c : Char} {x : Char}
    (h : x ∈ k.takeWhile (fun y => y ≠ c)) : x ≠ c := by
  have := List.mem_takeWhile_imp h
  simpa using this

theorem takeWhile_append_stop {c : Char} {k rest : Str} (h : c ∉ k) :
    (k ++ c :: rest).takeWhile (fun y => y ≠ c) = k := by
  induction k with
  | nil => simp [List.takeWhile_cons]
  | cons a t ih =>
    have ha : a ≠ c := fun hac => h (hac ▸ List.mem_cons_self a t)
    simp only [List.cons_append, List.takeWhile_cons]
    rw [if_pos (by simp [ha])]
    rw [ih (fun hm => h (List.mem_cons_of_mem a hm))]

theorem isPrefixOf_eq_of_length {a b l : Str} (ha : List.isPrefixOf a l = true)
    (hb : List.isPrefixOf b l = true) (hlen : a.length = b.length) : a = b := by
  induction l generalizing a b with
  | nil =>
    cases a with
    | nil =>
      cases b with
      | nil => rfl
      | cons y ys => simp [List.isPrefixOf] at hb
    | cons x xs => simp [List.isPrefixOf] at ha
  | cons q qs ih =>
    cases a with
    | nil =>
      cases b with
      | nil => rfl
      | cons y ys => simp at hlen
    | cons x xs =>
      cases b with
      | nil => simp at hlen
      | cons y ys =>
        simp only [List.isPrefixOf, Bool.and_eq_true, beq_iff_eq] at ha hb
        simp only [List.length_cons, Nat.succ.injEq] at hlen
        rw [ha.1, hb.1, ih ha.2 hb.2 hlen]

theorem strEndsWith_ne_suffix {l s1 s2 : Str} (h1 : strEndsWith l s1 = true)
    (hlen : s1.length = s2.length) (hne : s1 ≠ s2) : strEndsWith l s2 = false := by
  by_contra hcon
  rw [Bool.not_eq_false] at hcon
  unfold strEndsWith at h1 hcon
  have := isPrefixOf_eq_of_length h1 hcon (by simp [hlen])
  exact hne (by
    have := congrArg List.reverse this
    simpa using this)

/-! ## Entries helper lemmas -/

theorem hasKeyE_true_iff {es : Entries} {k : Str} :
    hasKeyE es k = true ↔ k ∈ entKeys es := by
  simp only [hasKeyE, List.any_eq_true, decide_eq_true_eq, entKeys, List.mem_map]

theorem hasKeyE_false_iff {es : Entries} {k : Str} :
    hasKeyE es k = false ↔ k ∉ entKeys es := by
  rw [← Bool.not_eq_true, not_iff_not]
  exact hasKeyE_true_iff

theorem entKeys_append (a b : Entries) : entKeys (a ++ b) = entKeys a ++ entKeys b := by
  simp [entKeys]

theorem entKeys_updEntry (es : Entries) (k : Str) (f : DRec → DRec) :
    entKeys (updEntry es k f) = entKeys es := by
  simp only [entKeys, updEntry, List.map_map]
  apply List.map_congr_left
  intro p _
  by_cases h : p.1 = k <;> simp [h]

theorem updEntry_not_mem {es : Entries} {k : Str} {f : DRec → DRec}
    (h : k ∉ entKeys es) : updEntry es k f = es := by
  unfold updEntry
  conv_rhs => rw [← List.map_id es]
  apply List.map_congr_left
  intro p hp
  have : p.1 ≠ k := fun he => h (he ▸ (List.mem_map.mpr ⟨p, hp, rfl⟩))
  simp [this]

theorem updEntry_append_singleton {es : Entries} {k : Str} {r : DRec} {f : DRec → DRec}
    (h : k ∉ entKeys es) : updEntry (es ++ [(k, r)]) k f = es ++ [(k, f r)] := by
  unfold updEntry
  rw [List.map_append]
  have h1 : List.map (fun p => if p.1 = k then (p.1, f p.2) else p) es = es :=
    updEntry_not_mem h
  have h2 : List.map (fun p => if p.1 = k then (p.1, f p.2) else p) [(k, r)] = [(k, f r)] := by
    simp
  rw [h1, h2]

theorem hasKeyE_append_singleton (es : Entries) (k : Str) (r : DRec) :
    hasKeyE (es ++ [(k, r)]) k = true := by
  unfold hasKeyE
  rw [List.any_append]
  simp

/-! ## Cleanliness predicates for the editor records -/

theorem goodRec_emptyRec : goodRec emptyRec := ⟨trivial, trivial, trivial⟩

/-! ## Evaluating `parseStep` on the lines `generate_file_content` emits -/

theorem pyStrip_main_line {k v : Str} (hkS : pyStrip k = k) (hvS : pyStrip v = v)
    (hv : v ≠ []) : pyStrip (k ++ '=' :: v) = k ++ '=' :: v := by
  apply pyStrip_eq_self_iff.mpr
  constructor
  · apply headNW_append (pyStrip_eq_self_iff.mp hkS).1
    intro _
    intro c hc
    simp only [List.head?_cons, Option.some.injEq] at hc
    rw [← hc]
    rfl
  · apply lastNW_append _ (by simp)
    exact lastNW_cons (by decide) (pyStrip_eq_self_iff.mp hvS).2

theorem parseStep_main_line {k v : Str} (es : Entries)
    (hkdot : ('.' : Char) ∉ k) (hkeq : ('=' : Char) ∉ k) (hkS : pyStrip k = k)
    (hv : v ≠ []) (hvS : pyStrip v = v) :
    parseStep es (k ++ '=' :: v) =
      updEntry (if hasKeyE es k then es else es ++ [(k, emptyRec)]) k
        (fun r => { r with main := some v }) := by
  have hne : k ++ '=' :: v ≠ [] := by simp
  have hcont : (k ++ '=' :: v).contains '=' = true :=
    strContains_iff.mpr (List.mem_append_right k (List.mem_cons_self _ _))
  have hinfo : strEndsWith k (str ".info") = false :=
    strEndsWith_false_of_not_mem (by decide) hkdot
  have hkext : strEndsWith k (str ".kext") = false :=
    strEndsWith_false_of_not_mem (by decide) hkdot
  simp only [parseStep, pyStrip_main_line hkS hvS hv, hcont,
    splitAtChar_append_cons hkeq, hkS, hvS, takeWhile_eq_self_of_not_mem hkdot,
    hinfo, hkext, hne, Bool.true_eq_false, not_true_eq_false, or_self, if_false,
    if_neg hv, Bool.false_eq_true, not_false_eq_true]

theorem pyStrip_suffix_key {k suf : Str} (hkS : pyStrip k = k)
    (hhead : headNW suf) (hlast : lastNW suf) (hne : suf ≠ []) :
    pyStrip (k ++ suf) = k ++ suf := by
  apply pyStrip_eq_self_iff.mpr
  constructor
  · exact headNW_append (pyStrip_eq_self_iff.mp hkS).1 (fun _ => hhead)
  · exact lastNW_append hlast hne

theorem headNW_info : headNW (str ".info") := by
  intro c hc
  simp only [show (str ".info").head? = some '.' from rfl, Option.some.injEq] at hc
  rw [← hc]
  rfl

theorem lastNW_info : lastNW (str ".info") := by
  intro c hc
  simp only [show (str ".info").getLast? = some 'o' from rfl, Option.some.injEq] at hc
  rw [← hc]
  rfl

theorem headNW_kext : headNW (str ".kext") := by
  intro c hc
  simp only [show (str ".kext").head? = some '.' from rfl, Option.some.injEq] at hc
  rw [← hc]
  rfl

theorem lastNW_kext : lastNW (str ".kext") := by
  intro c hc
  simp only [show (str ".kext").getLast? = some 't' from rfl, Option.some.injEq] at hc
  rw [← hc]
  rfl

theorem parseStep_info_line {k v : Str} (es : Entries)
    (hkdot : ('.' : Char) ∉ k) (hkeq : ('=' : Char) ∉ k) (hkS : pyStrip k = k)
    (hv : v ≠ []) (hvS : pyStrip v = v) :
    parseStep es (k ++ str ".info=" ++ v) =
      updEntry (if hasKeyE es k then es else es ++ [(k, emptyRec)]) k
        (fun r => { r with info := some v }) := by
  have hassoc : k ++ str ".info=" ++ v = (k ++ str ".info") ++ '=' :: v := by
    rw [show str ".info=" = str ".info" ++ ['='] from rfl]
    simp
  rw [hassoc]
  have hkeq2 : ('=' : Char) ∉ k ++ str ".info" := by
    intro hm
    rcases List.mem_append.mp hm with hh | hh
    · exact hkeq hh
    · exact absurd hh (by decide)
  have hkS2 : pyStrip (k ++ str ".info") = k ++ str ".info" :=
    pyStrip_suffix_key hkS headNW_info lastNW_info (by decide)
  have hne : (k ++ str ".info") ++ '=' :: v ≠ [] := by simp
  have hcont : ((k ++ str ".info") ++ '=' :: v).contains '=' = true :=
    strContains_iff.mpr (List.mem_append_right _ (List.mem_cons_self _ _))
  have hbase : (k ++ str ".info").takeWhile (fun y => y ≠ '.') = k := by
    rw [show str ".info" = '.' :: str "info" from rfl]
    exact takeWhile_append_stop hkdot
  have hinfo : strEndsWith (k ++ str ".info") (str ".info") = true :=
    strEndsWith_append _ _
  simp only [parseStep, pyStrip_main_line hkS2 hvS hv, hcont,
    splitAtChar_append_cons hkeq2, hkS2, hvS, hbase, hinfo, hne,
    Bool.true_eq_false, not_true_eq_false, or_self, if_false,
    if_neg hv, Bool.false_eq_true, not_false_eq_true, if_true]

theorem parseStep_kext_line {k v : Str} (es : Entries)
    (hkdot : ('.' : Char) ∉ k) (hkeq : ('=' : Char) ∉ k) (hkS : pyStrip k = k)
    (hv : v ≠ []) (hvS : pyStrip v = v) :
    parseStep es (k ++ str ".kext=" ++ v) =
      updEntry (if hasKeyE es k then es else es ++ [(k, emptyRec)]) k
        (fun r => { r with kext := some v }) := by
  have hassoc : k ++ str ".kext=" ++ v = (k ++ str ".kext") ++ '=' :: v := by
    rw [show str ".kext=" = str ".kext" ++ ['='] from rfl]
    simp
  rw [hassoc]
  have hkeq2 : ('=' : Char) ∉ k ++ str ".kext" := by
    intro hm
    rcases List.mem_append.mp hm with hh | hh
    · exact hkeq hh
    · exact absurd hh (by decide)
  have hkS2 : pyStrip (k ++ str ".kext") = k ++ str ".kext" :=
    pyStrip_suffix_key hkS headNW_kext lastNW_kext (by decide)
  have hne : (k ++ str ".kext") ++ '=' :: v ≠ [] := by simp
  have hcont : ((k ++ str ".kext") ++ '=' :: v).contains '=' = true :=
    strContains_iff.mpr (List.mem_append_right _ (List.mem_cons_self _ _))
  have hbase : (k ++ str ".kext").takeWhile (fun y => y ≠ '.') = k := by
    rw [show str ".kext" = '.' :: str "kext" from rfl]
    exact takeWhile_append_stop hkdot
  have hkext : strEndsWith (k ++ str ".kext") (str ".kext") = true :=
    strEndsWith_append _ _
  have hinfo : strEndsWith (k ++ str ".kext") (str ".info") = false :=
    strEndsWith_ne_suffix hkext (by decide) (by decide)
  simp only [parseStep, pyStrip_main_line hkS2 hvS hv, hcont,
    splitAtChar_append_cons hkeq2, hkS2, hvS, hbase, hinfo, hkext, hne,
    Bool.true_eq_false, not_true_eq_false, or_self, if_false,
    if_neg hv, Bool.false_eq_true, not_false_eq_true, if_true]

theorem if_hasKeyE_false {es : Entries} {k : Str} (h : k ∉ entKeys es) :
    (if hasKeyE es k then es else es ++ [(k, emptyRec)]) = es ++ [(k, emptyRec)] := by
  rw [hasKeyE_false_iff.mpr h]
  simp

theorem if_hasKeyE_append {es : Entries} {k : Str} {r : DRec} :
    (if hasKeyE (es ++ [(k, r)]) k then es ++ [(k, r)]
     else (es ++ [(k, r)]) ++ [(k, emptyRec)]) = es ++ [(k, r)] := by
  rw [hasKeyE_append_singleton]
  simp

theorem foldl_parseStep_recLines {k : Str} {r : DRec}
    (hkdot : ('.' : Char) ∉ k) (hkeq : ('=' : Char) ∉ k) (hkS : pyStrip k = k)
    (hr : goodRec r) (acc : Entries) (hacc : k ∉ entKeys acc) :
    List.foldl parseStep acc (recLines (k, r)) =
      acc ++ (if r = emptyRec then [] else [(k, r)]) := by
  obtain ⟨rm, ri, rk⟩ := r
  obtain ⟨hm, hi, hx⟩ := hr
  rcases rm with _ | m <;> rcases ri with _ | i <;> rcases rk with _ | x
  case none.none.none =>
    simp [recLines, emptyRec]
  case none.none.some =>
    simp only [recLines, Option.toList, List.map, List.nil_append, List.append_nil,
      List.foldl_cons, List.foldl_nil]
    rw [parseStep_kext_line acc hkdot hkeq hkS hx.1 hx.2.1,
      if_hasKeyE_false hacc, updEntry_append_singleton hacc]
    simp [emptyRec]
  case none.some.none =>
    simp only [recLines, Option.toList, List.map, List.nil_append, List.append_nil,
      List.foldl_cons, List.foldl_nil]
    rw [parseStep_info_line acc hkdot hkeq hkS hi.1 hi.2.1,
      if_hasKeyE_false hacc, updEntry_append_singleton hacc]
    simp [emptyRec]
  case none.some.some =>
    simp only [recLines, Option.toList, List.map, List.nil_append, List.append_nil,
      List.cons_append, List.foldl_cons, List.foldl_nil]
    rw [parseStep_info_line acc hkdot hkeq hkS hi.1 hi.2.1,
      if_hasKeyE_false hacc, updEntry_append_singleton hacc,
      parseStep_kext_line _ hkdot hkeq hkS hx.1 hx.2.1,
      if_hasKeyE_append, updEntry_append_singleton hacc]
    simp [emptyRec]
  case some.none.none =>
    simp only [recLines, Option.toList, List.map, List.nil_append, List.append_nil,
      List.foldl_cons, List.foldl_nil]
    rw [parseStep_main_line acc hkdot hkeq hkS hm.1 hm.2.1,
      if_hasKeyE_false hacc, updEntry_append_singleton hacc]
    simp [emptyRec]
  case some.none.some =>
    simp only [recLines, Option.toList, List.map, List.nil_append, List.append_nil,
      List.cons_append, List.foldl_cons, List.foldl_nil]
    rw [parseStep_main_line acc hkdot hkeq hkS hm.1 hm.2.1,
      if_hasKeyE_false hacc, updEntry_append_singleton hacc,
      parseStep_kext_line _ hkdot hkeq hkS hx.1 hx.2.1,
      if_hasKeyE_append, updEntry_append_singleton hacc]
    simp [emptyRec]
  case some.some.none =>
    simp only [recLines, Option.toList, List.map, List.nil_append, List.append_nil,
      List.cons_append, List.foldl_cons, List.foldl_nil]
    rw [parseStep_main_line acc hkdot hkeq hkS hm.1 hm.2.1,
      if_hasKeyE_false hacc, updEntry_append_singleton hacc,
      parseStep_info_line _ hkdot hkeq hkS hi.1 hi.2.1,
      if_hasKeyE_append, updEntry_append_singleton hacc]
    simp [emptyRec]
  case some.some.some =>
    simp only [recLines, Option.toList, List.map, List.nil_append, List.append_nil,
      List.cons_append, List.foldl_cons, List.foldl_nil]
    rw [parseStep_main_line acc hkdot hkeq hkS hm.1 hm.2.1,
      if_hasKeyE_false hacc, updEntry_append_singleton hacc,
      parseStep_info_line _ hkdot hkeq hkS hi.1 hi.2.1,
      if_hasKeyE_append, updEntry_append_singleton hacc,
      parseStep_kext_line _ hkdot hkeq hkS hx.1 hx.2.1,
      if_hasKeyE_append, updEntry_append_singleton hacc]
    simp [emptyRec]

/-! ## Round trip: `parse_file` after `generate_file_content` -/

theorem recLines_eq_nil_iff {k : Str} {r : DRec} :
    recLines (k, r) = [] ↔ r = emptyRec := by
  obtain ⟨rm, ri, rk⟩ := r
  rcases rm with _ | m <;> rcases ri with _ | i <;> rcases rk with _ | x <;>
    simp [recLines, emptyRec]

theorem recLines_mem_clean {k : Str} {r : DRec} {line : Str}
    (hk : ('\n' : Char) ∉ k ∧ ('\r' : Char) ∉ k) (hr : goodRec r)
    (h : line ∈ recLines (k, r)) : ('\n' : Char) ∉ line ∧ ('\r' : Char) ∉ line := by
  simp only [recLines] at h
  have main_clean : ∀ v : Str, goodVal v → ∀ c : Char, c = '\n' ∨ c = '\r' →
      c ∉ k ++ '=' :: v := by
    intro v hv c hc hm
    rcases List.mem_append.mp hm with hh | hh
    · rcases hc with rfl | rfl
      · exact hk.1 hh
      · exact hk.2 hh
    · rcases List.mem_cons.mp hh with hh2 | hh2
      · rcases hc with rfl | rfl <;> exact absurd hh2 (by decide)
      · rcases hc with rfl | rfl
        · exact hv.2.2.1 hh2
        · exact hv.2.2.2 hh2
  have suf_clean : ∀ (suf : Str) (v : Str), goodVal v →
      ('\n' : Char) ∉ suf → ('\r' : Char) ∉ suf →
      ∀ c : Char, c = '\n' ∨ c = '\r' → c ∉ k ++ suf ++ v := by
    intro suf v hv hs1 hs2 c hc hm
    rcases List.mem_append.mp hm with hh | hh
    · rcases List.mem_append.mp hh with hh2 | hh2
      · rcases hc with rfl | rfl
        · exact hk.1 hh2
        · exact hk.2 hh2
      · rcases hc with rfl | rfl
        · exact hs1 hh2
        · exact hs2 hh2
    · rcases hc with rfl | rfl
      · exact hv.2.2.1 hh
      · exact hv.2.2.2 hh
  rcases List.mem_append.mp h with hh | hkx
  · rcases List.mem_append.mp hh with hmn | hin
    · rcases List.mem_map.mp hmn with ⟨m, hm, rfl⟩
      have hgm : goodVal m := by
        rcases hmo : r.main with _ | mm
        · rw [hmo] at hm; simp at hm
        · rw [hmo] at hm
          simp only [Option.toList, List.mem_singleton] at hm
          subst hm
          have := hr.1
          rwa [hmo] at this
      exact ⟨main_clean m hgm '\n' (Or.inl rfl), main_clean m hgm '\r' (Or.inr rfl)⟩
    · rcases List.mem_map.mp hin with ⟨i, hi, rfl⟩
      have hgi : goodVal i := by
        rcases hio : r.info with _ | ii
        · rw [hio] at hi; simp at hi
        · rw [hio] at hi
          simp only [Option.toList, List.mem_singleton] at hi
          subst hi
          have := hr.2.1
          rwa [hio] at this
      exact ⟨suf_clean (str ".info=") i hgi (by decide) (by decide) '\n' (Or.inl rfl),
             suf_clean (str ".info=") i hgi (by decide) (by decide) '\r' (Or.inr rfl)⟩
  · rcases List.mem_map.mp hkx with ⟨x, hx, rfl⟩
    have hgx : goodVal x := by
      rcases hxo : r.kext with _ | xx
      · rw [hxo] at hx; simp at hx
      · rw [hxo] at hx
        simp only [Option.toList, List.mem_singleton] at hx
        subst hx
        have := hr.2.2
        rwa [hxo] at this
    exact ⟨suf_clean (str ".kext=") x hgx (by decide) (by decide) '\n' (Or.inl rfl),
           suf_clean (str ".kext=") x hgx (by decide) (by decide) '\r' (Or.inr rfl)⟩

theorem foldl_parseStep_entries (es : Entries)
    (hg : ∀ p ∈ es, goodKeyLoose p.1 ∧ pyStrip p.1 = p.1 ∧ goodRec p.2)
    (hnd : (entKeys es).Nodup) :
    ∀ acc : Entries, (∀ kk ∈ entKeys es, kk ∉ entKeys acc) →
      List.foldl parseStep acc (es.map recLines).flatten = acc ++ filterNE es := by
  induction es with
  | nil =>
    intro acc _
    simp [filterNE]
  | cons p rest ih =>
    intro acc hdisj
    obtain ⟨k, r⟩ := p
    have hkg := hg (k, r) (List.mem_cons_self _ _)
    have hknotacc : k ∉ entKeys acc :=
      hdisj k (List.mem_map.mpr ⟨(k, r), List.mem_cons_self _ _, rfl⟩)
    simp only [List.map_cons, List.flatten_cons]
    rw [List.foldl_append]
    rw [foldl_parseStep_recLines hkg.1.1 hkg.1.2.1 hkg.2.1 hkg.2.2 acc hknotacc]
    have hndtail : (entKeys rest).Nodup := by
      simp only [entKeys, List.map_cons] at hnd
      exact hnd.of_cons
    have hknotrest : k ∉ entKeys rest := by
      simp only [entKeys, List.map_cons, List.nodup_cons] at hnd
      exact hnd.1
    rw [ih (fun q hq => hg q (List.mem_cons_of_mem _ hq)) hndtail
      (acc ++ (if r = emptyRec then [] else [(k, r)]))
      (by
        intro kk hkk
        rw [entKeys_append]
        intro hmem
        rcases List.mem_append.mp hmem with hh | hh
        · refine hdisj kk ?_ hh
          obtain ⟨q, hq, rfl⟩ := List.mem_map.mp hkk
          exact List.mem_map.mpr ⟨q, List.mem_cons_of_mem _ hq, rfl⟩
        · by_cases hre : r = emptyRec
          · rw [if_pos hre] at hh; simp [entKeys] at hh
          · rw [if_neg hre] at hh
            simp only [entKeys, List.map_cons, List.map_nil, List.mem_singleton] at hh
            subst hh
            exact hknotrest hkk)]
    by_cases hre : r = emptyRec
    · simp [filterNE, hre, List.filter_cons, emptyRec]
    · simp only [filterNE, List.filter_cons, if_neg hre, decide_not]
      simp [hre, List.append_assoc]

theorem generate_filterNE (es : Entries) :
    generate_file_content (filterNE es) = generate_file_content es := by
  unfold generate_file_content
  congr 1
  induction es with
  | nil => rfl
  | cons p rest ih =>
    obtain ⟨k, r⟩ := p
    by_cases hre : r = emptyRec
    · simp only [filterNE, List.filter_cons] at *
      rw [if_neg (by simp [hre])]
      simp only [List.map_cons, List.flatten_cons]
      rw [recLines_eq_nil_iff.mpr hre]
      simpa using ih
    · simp only [filterNE, List.filter_cons] at *
      rw [if_pos (by simp [hre])]
      simp only [List.map_cons, List.flatten_cons]
      rw [ih]

theorem parse_file_nil : parse_file [] = [] := rfl

theorem parse_file_generate (es : Entries)
    (hg : ∀ p ∈ es, goodKeyLoose p.1 ∧ pyStrip p.1 = p.1 ∧ goodRec p.2)
    (hnd : (entKeys es).Nodup) :
    parse_file (generate_file_content es) = filterNE es := by
  by_cases hl : (es.map recLines).flatten = []
  · have hall : ∀ p ∈ es, p.2 = emptyRec := by
      intro p hp
      apply recLines_eq_nil_iff.mp
      have : recLines p ∈ es.map recLines := List.mem_map.mpr ⟨p, hp, rfl⟩
      rcases hrl : recLines p with _ | ⟨a, b⟩
      · rfl
      · exfalso
        have hmem : a ∈ (es.map recLines).flatten := by
          apply List.mem_flatten.mpr
          exact ⟨recLines p, this, by rw [hrl]; exact List.mem_cons_self _ _⟩
        rw [hl] at hmem
        simp at hmem
    have hflt : filterNE es = [] := by
      apply List.filter_eq_nil_iff.mpr
      intro p hp
      simp [hall p hp]
    rw [hflt]
    unfold generate_file_content
    rw [hl]
    rfl
  · unfold generate_file_content parse_file
    rw [splitLines_joinNL hl (by
      intro line hline
      obtain ⟨ls, hls, hmem⟩ := List.mem_flatten.mp hline
      obtain ⟨p, hp, rfl⟩ := List.mem_map.mp hls
      obtain ⟨k, r⟩ := p
      have hpg := hg (k, r) hp
      exact recLines_mem_clean ⟨hpg.1.2.2.1, hpg.1.2.2.2.1⟩ hpg.2.2 hmem)]
    rw [foldl_parseStep_entries es hg hnd [] (by intro kk _; simp [entKeys])]
    rfl

/-! ## `parse_file` output invariants -/

theorem goodRec_update_main {r : DRec} {v : Option Str} (hr : goodRec r)
    (hv : goodOptVal v) : goodRec { r with main := v } := ⟨hv, hr.2.1, hr.2.2⟩

theorem goodRec_update_info {r : DRec} {v : Option Str} (hr : goodRec r)
    (hv : goodOptVal v) : goodRec { r with info := v } := ⟨hr.1, hv, hr.2.2⟩

theorem goodRec_update_kext {r : DRec} {v : Option Str} (hr : goodRec r)
    (hv : goodOptVal v) : goodRec { r with kext := v } := ⟨hr.1, hr.2.1, hv⟩

theorem entInv_insert_upd {es : Entries} {base : Str} {f : DRec → DRec}
    (hes : entInv es) (hb : goodKeyLoose base)
    (hf : ∀ r, goodRec r → goodRec (f r)) :
    entInv (updEntry (if hasKeyE es base then es else es ++ [(base, emptyRec)])
      base f) := by
  have hes1 : entInv (if hasKeyE es base then es else es ++ [(base, emptyRec)]) := by
    by_cases hk : hasKeyE es base
    · rw [if_pos hk]; exact hes
    · rw [if_neg hk]
      have hnot : base ∉ entKeys es := hasKeyE_false_iff.mp (by simpa using hk)
      constructor
      · rw [entKeys_append]
        apply List.Nodup.append hes.1 (by simp [entKeys])
        intro a ha hb2
        simp only [entKeys, List.map_cons, List.map_nil, List.mem_singleton] at hb2
        subst hb2
        exact hnot ha
      · intro p hp
        rcases List.mem_append.mp hp with hh | hh
        · exact hes.2 p hh
        · simp only [List.mem_singleton] at hh
          subst hh
          exact ⟨hb, goodRec_emptyRec⟩
  constructor
  · rw [entKeys_updEntry]
    exact hes1.1
  · intro p hp
    simp only [updEntry, List.mem_map] at hp
    obtain ⟨q, hq, rfl⟩ := hp
    by_cases hqb : q.1 = base
    · simp only [if_pos hqb]
      exact ⟨hqb ▸ hb, hf q.2 (hes1.2 q hq).2⟩
    · simp only [if_neg hqb]
      exact hes1.2 q hq

theorem parseStep_entInv {es : Entries} {line : Str}
    (hclean : ('\n' : Char) ∉ line ∧ ('\r' : Char) ∉ line)
    (hes : entInv es) : entInv (parseStep es line) := by
  by_cases hg0 : pyStrip line = [] ∨ ¬ (pyStrip line).contains '=' = true
  · simp only [parseStep, if_pos hg0]
    exact hes
  · cases hsp : splitAtChar '=' (pyStrip line) with
    | none =>
      simp only [parseStep, if_neg hg0, hsp]
      exact hes
    | some kv =>
      obtain ⟨k0, v0⟩ := kv
      obtain ⟨hline_eq, hk0eq⟩ := splitAtChar_eq_some hsp
      simp only [parseStep, if_neg hg0, hsp]
      have hmemline : ∀ x : Char, x ∈ pyStrip line → x ∈ line :=
        fun x hx => mem_of_mem_pyStrip hx
      have hmemk0 : ∀ x : Char, x ∈ k0 → x ∈ line := by
        intro x hx
        exact hmemline x (hline_eq ▸ List.mem_append_left _ hx)
      have hmemv0 : ∀ x : Char, x ∈ v0 → x ∈ line := by
        intro x hx
        exact hmemline x
          (hline_eq ▸ List.mem_append_right _ (List.mem_cons_of_mem _ hx))
      have hbase : goodKeyLoose ((pyStrip k0).takeWhile (fun c => c ≠ '.')) := by
        have hsubkey : ∀ x : Char, x ∈ (pyStrip k0).takeWhile (fun c => c ≠ '.') →
            x ∈ k0 := by
          intro x hx
          exact mem_of_mem_pyStrip (( List.takeWhile_prefix _).mem hx)
        refine ⟨?_, ?_, ?_, ?_, ?_⟩
        · intro hm
          exact takeWhile_mem_ne hm rfl
        · intro hm
          exact hk0eq (hsubkey '=' hm)
        · intro hm
          exact hclean.1 (hmemk0 _ (hsubkey '\n' hm))
        · intro hm
          exact hclean.2 (hmemk0 _ (hsubkey '\r' hm))
        · apply stripLeft_eq_self_iff.mpr
          exact headNW_of_front ( List.takeWhile_prefix _) (headNW_pyStrip k0)
      have hval : goodOptVal (if pyStrip v0 = [] then none else some (pyStrip v0)) := by
        by_cases hv0 : pyStrip v0 = []
        · rw [if_pos hv0]; trivial
        · rw [if_neg hv0]
          refine ⟨hv0, pyStrip_idem v0, ?_, ?_⟩
          · intro hm
            exact hclean.1 (hmemv0 _ (mem_of_mem_pyStrip hm))
          · intro hm
            exact hclean.2 (hmemv0 _ (mem_of_mem_pyStrip hm))
      by_cases h1 : strEndsWith (pyStrip k0) (str ".info") = true
      · rw [if_pos h1]
        exact entInv_insert_upd hes hbase
          (fun r hr => goodRec_update_info hr hval)
      · rw [if_neg h1]
        by_cases h2 : strEndsWith (pyStrip k0) (str ".kext") = true
        · rw [if_pos h2]
          exact entInv_insert_upd hes hbase
            (fun r hr => goodRec_update_kext hr hval)
        · rw [if_neg h2]
          exact entInv_insert_upd hes hbase
            (fun r hr => goodRec_update_main hr hval)

theorem foldl_parseStep_entInv {lines : List Str} :
    ∀ {acc : Entries}, (∀ l ∈ lines, ('\n' : Char) ∉ l ∧ ('\r' : Char) ∉ l) →
      entInv acc → entInv (List.foldl parseStep acc lines) := by
  induction lines with
  | nil => intro acc _ h; exact h
  | cons a rest ih =>
    intro acc hcl hacc
    rw [List.foldl_cons]
    exact ih (fun l hl => hcl l (List.mem_cons_of_mem a hl))
      (parseStep_entInv (hcl a (List.mem_cons_self _ _)) hacc)

theorem parse_file_entInv (t : Str) : entInv (parse_file t) := by
  unfold parse_file
  apply foldl_parseStep_entInv
  · intro l hl
    exact splitLines_no_nl hl
  · exact ⟨List.nodup_nil, by intro p hp; simp at hp⟩

/-! ## MatchResolver general lemmas -/

theorem multimatch_guard_not {q : Str} (hq : q ≠ []) (hamp : q.contains '&' = true) :
    ¬ (q = [] ∨ ¬ q.contains '&' = true) := by
  intro h
  rcases h with h | h
  · exact hq h
  · exact h hamp

theorem multimatch_id_exact {q v d st : Str} {support details kext : Dict}
    (hsplit : pySplit '&' q = [v, d]) (hq : q ≠ []) (hamp : q.contains '&' = true)
    (hex : dGet support q = some st) :
    get_support_info_with_multimatch q support details kext false =
      some ⟨some st, q, dGetD details q (str "未知"), dGetD kext q (str "无"),
            some .exact⟩ := by
  simp only [get_support_info_with_multimatch, Bool.false_eq_true, if_false,
    if_neg (multimatch_guard_not hq hamp), hsplit, hex]

theorem multimatch_id_fuzzy {q v d st : Str} {support details kext : Dict}
    (hsplit : pySplit '&' q = [v, d]) (hq : q ≠ []) (hamp : q.contains '&' = true)
    (hex : dGet support q = none)
    (hfz : dGet support (v ++ '&' :: pyTake 2 d ++ str "FF") = some st) :
    get_support_info_with_multimatch q support details kext false =
      some ⟨some st, q,
            dGetD details (v ++ '&' :: pyTake 2 d ++ str "FF") (str "未知(模糊匹配)"),
            dGetD kext (v ++ '&' :: pyTake 2 d ++ str "FF") (str "无"),
            some .fuzzy⟩ := by
  simp only [get_support_info_with_multimatch, Bool.false_eq_true, if_false,
    if_neg (multimatch_guard_not hq hamp), hsplit, hex, hfz]

theorem multimatch_id_wildcard {q v d st : Str} {support details kext : Dict}
    (hsplit : pySplit '&' q = [v, d]) (hq : q ≠ []) (hamp : q.contains '&' = true)
    (hex : dGet support q = none)
    (hfz : dGet support (v ++ '&' :: pyTake 2 d ++ str "FF") = none)
    (hwc : dGet support (v ++ str "&FFFF") = some st) :
    get_support_info_with_multimatch q support details kext false =
      some ⟨some st, q, dGetD details (v ++ str "&FFFF") (str "未知(厂商通用支持)"),
            dGetD kext (v ++ str "&FFFF") (str "无"), some .wildcard⟩ := by
  simp only [get_support_info_with_multimatch, Bool.false_eq_true, if_false,
    if_neg (multimatch_guard_not hq hamp), hsplit, hex, hfz, hwc]

theorem multimatch_id_none {q v d : Str} {support details kext : Dict}
    (hsplit : pySplit '&' q = [v, d]) (hq : q ≠ []) (hamp : q.contains '&' = true)
    (hex : dGet support q = none)
    (hfz : dGet support (v ++ '&' :: pyTake 2 d ++ str "FF") = none)
    (hwc : dGet support (v ++ str "&FFFF") = none) :
    get_support_info_with_multimatch q support details kext false =
      some ⟨none, q, str "未知", str "无", none⟩ := by
  simp only [get_support_info_with_multimatch, Bool.false_eq_true, if_false,
    if_neg (multimatch_guard_not hq hamp), hsplit, hex, hfz, hwc]

theorem multimatch_id_shortcircuit {q : Str} (support details kext : Dict)
    (h : q = [] ∨ ¬ q.contains '&' = true) :
    get_support_info_with_multimatch q support details kext false =
      some ⟨none, if q = [] then str "N/A" else q, str "未知", str "无", none⟩ := by
  simp only [get_support_info_with_multimatch, Bool.false_eq_true, if_false, if_pos h]

theorem multimatch_id_err_nil {q : Str} (support details kext : Dict)
    (hq : q ≠ []) (hamp : q.contains '&' = true)
    (hsp : pySplit '&' q = []) :
    get_support_info_with_multimatch q support details kext false = none := by
  simp only [get_support_info_with_multimatch, Bool.false_eq_true, if_false,
    if_neg (multimatch_guard_not hq hamp), hsp]

theorem multimatch_id_err_single {q a : Str} (support details kext : Dict)
    (hq : q ≠ []) (hamp : q.contains '&' = true)
    (hsp : pySplit '&' q = [a]) :
    get_support_info_with_multimatch q support details kext false = none := by
  simp only [get_support_info_with_multimatch, Bool.false_eq_true, if_false,
    if_neg (multimatch_guard_not hq hamp), hsp]

theorem multimatch_id_err_long {q a b c : Str} {rest : List Str}
    (support details kext : Dict) (hq : q ≠ []) (hamp : q.contains '&' = true)
    (hsp : pySplit '&' q = a :: b :: c :: rest) :
    get_support_info_with_multimatch q support details kext false = none := by
  simp only [get_support_info_with_multimatch, Bool.false_eq_true, if_false,
    if_neg (multimatch_guard_not hq hamp), hsp]

/-- In the ID-keyed family the second tuple component is always the query
itself (or `"N/A"` for the empty query), never the database key that
produced a fuzzy or wildcard hit. -/
theorem multimatch_id_ident {q : Str} (support details kext : Dict) (hq : q ≠ []) :
    ∀ t : MatchTuple,
      get_support_info_with_multimatch q support details kext false = some t →
        t.ident = q := by
  intro t h
  by_cases hg0 : q = [] ∨ ¬ q.contains '&' = true
  · rw [multimatch_id_shortcircuit support details kext hg0] at h
    injection h with h
    rw [← h]
    simp [hq]
  · have hamp : q.contains '&' = true := by
      by_contra hc
      exact hg0 (Or.inr hc)
    cases hsp : pySplit '&' q with
    | nil =>
      rw [multimatch_id_err_nil support details kext hq hamp hsp] at h
      exact absurd h (by simp)
    | cons a rest =>
      cases rest with
      | nil =>
        rw [multimatch_id_err_single support details kext hq hamp hsp] at h
        exact absurd h (by simp)
      | cons b rest2 =>
        cases rest2 with
        | nil =>
          cases hex : dGet support q with
          | some st =>
            rw [multimatch_id_exact hsp hq hamp hex] at h
            injection h with h
            rw [← h]
          | none =>
            cases hfz : dGet support (a ++ '&' :: pyTake 2 b ++ str "FF") with
            | some st =>
              rw [multimatch_id_fuzzy hsp hq hamp hex hfz] at h
              injection h with h
              rw [← h]
            | none =>
              cases hwc : dGet support (a ++ str "&FFFF") with
              | some st =>
                rw [multimatch_id_wildcard hsp hq hamp hex hfz hwc] at h
                injection h with h
                rw [← h]
              | none =>
                rw [multimatch_id_none hsp hq hamp hex hfz hwc] at h
                injection h with h
                rw [← h]
        | cons c rest3 =>
          rw [multimatch_id_err_long support details kext hq hamp hsp] at h
          exact absurd h (by simp)

/-- In the name-keyed family the second tuple component is always the
upper-cased query. -/
theorem multimatch_name_ident {q : Str} (support details kext : Dict) :
    ∀ t : MatchTuple,
      get_support_info_with_multimatch q support details kext true = some t →
        t.ident = pyUpper q := by
  intro t h
  simp only [get_support_info_with_multimatch, if_true] at h
  cases hex : dGet support (pyUpper q) with
  | some st =>
    rw [hex] at h
    injection h with h
    rw [← h]
  | none =>
    rw [hex] at h
    cases hfz : support.find? (fun p =>
        headIs '*' p.1 && strIn (pyUpper (pyDrop 1 p.1)) (pyUpper q)) with
    | some p =>
      rw [hfz] at h
      injection h with h
      rw [← h]
    | none =>
      rw [hfz] at h
      cases hwc : support.find? (fun p =>
          !headIs '*' p.1 && strIn (pyUpper p.1) (pyUpper q)) with
      | some p =>
        rw [hwc] at h
        injection h with h
        rw [← h]
      | none =>
        rw [hwc] at h
        injection h with h
        rw [← h]

/-! ## Loader general lemmas -/

theorem loadLine_skip {m : SupportMaps} {rawLine : Str}
    (h : pyStrip rawLine = [] ∨ ('=' : Char) ∉ pyStrip rawLine) :
    loadLine m rawLine = m := by
  unfold loadLine
  rw [if_neg]
  intro hcon
  rcases h with h | h
  · exact hcon.1 h
  · exact h (strContains_iff.mp hcon.2)

theorem dSet_keys {d : Dict} {k v : Str} :
    ∀ p ∈ dSet d k v, p.1 = k ∨ ∃ q ∈ d, p.1 = q.1 := by
  intro p hp
  unfold dSet at hp
  split at hp
  · obtain ⟨q, hq, rfl⟩ := List.mem_map.mp hp
    by_cases hqk : q.1 = k
    · simp [hqk]
    · right
      exact ⟨q, hq, by simp [hqk]⟩
  · rcases List.mem_append.mp hp with hh | hh
    · exact Or.inr ⟨p, hh, rfl⟩
    · simp only [List.mem_singleton] at hh
      subst hh
      exact Or.inl rfl

theorem loadLine_mapsUpper {m : SupportMaps} (rawLine : Str) (hm : mapsUpper m) :
    mapsUpper (loadLine m rawLine) := by
  unfold loadLine
  dsimp only []
  split
  · cases hsp : splitAtChar '=' (pyStrip rawLine) with
    | none => exact hm
    | some kv =>
      obtain ⟨key, value⟩ := kv
      have hnew : ∀ (d : Dict) (k v2 : Str), (∀ p ∈ d, pyUpper p.1 = p.1) →
          ∀ p ∈ dSet d (pyUpper k) v2, pyUpper p.1 = p.1 := by
        intro d k v2 hd p hp
        rcases dSet_keys p hp with hh | ⟨q, hq, hh⟩
        · rw [hh, pyUpper_pyUpper]
        · rw [hh]
          exact hd q hq
      dsimp only []
      by_cases h1 : strEndsWith key (str ".info") = true
      · rw [if_pos h1]
        exact ⟨hm.1, hnew m.details _ value hm.2.1, hm.2.2⟩
      · rw [if_neg h1]
        by_cases h2 : strEndsWith key (str ".kext") = true
        · rw [if_pos h2]
          exact ⟨hm.1, hm.2.1, hnew m.kext _ value hm.2.2⟩
        · rw [if_neg h2]
          exact ⟨hnew m.support _ value hm.1, hm.2.1, hm.2.2⟩
  · exact hm

theorem load_support_info_mapsUpper (t : Str) : mapsUpper (load_support_info t) := by
  unfold load_support_info
  have : ∀ (lines : List Str) (m : SupportMaps), mapsUpper m →
      mapsUpper (List.foldl loadLine m lines) := by
    intro lines
    induction lines with
    | nil => intro m hm; exact hm
    | cons a rest ih =>
      intro m hm
      rw [List.foldl_cons]
      exact ih _ (loadLine_mapsUpper a hm)
  apply this
  refine ⟨?_, ?_, ?_⟩ <;> (intro p hp; simp [emptyMaps] at hp)

/-! ## Validator general lemmas -/

theorem validateLines_mem (lines : List Str) :
    ∀ (n i : Nat) (h : i < lines.length) (res : Str),
      pyStrip (lines.get ⟨i, h⟩) ≠ [] →
      is_valid_entry (pyStrip (lines.get ⟨i, h⟩)) = (false, res) →
        ((n + i, res, pyStrip (lines.get ⟨i, h⟩)) ∈ (validateLines n lines).1 ∧
         (repairCond res = true →
           pyStrip (lines.get ⟨i, h⟩) ∈ (validateLines n lines).2)) := by
  induction lines with
  | nil => intro n i h; simp at h
  | cons a rest ih =>
    intro n i h res hne hval
    cases i with
    | zero =>
      simp only [List.get] at hne hval ⊢
      simp only [validateLines]
      rw [if_neg hne, hval]
      dsimp only []
      constructor
      · simp
      · intro hrep
        rw [if_pos hrep]
        simp
    | succ j =>
      simp only [List.get] at hne hval ⊢
      have hj : j < rest.length := Nat.lt_of_succ_lt_succ h
      have prev := ih (n + 1) j hj res hne hval
      simp only [validateLines]
      have harith : n + 1 + j = n + (j + 1) := by omega
      rw [harith] at prev
      rcases hVL : validateLines (n + 1) rest with ⟨errs, reps⟩
      rw [hVL] at prev
      by_cases hblank : pyStrip a = []
      · rw [if_pos hblank]
        exact prev
      · rw [if_neg hblank]
        cases hive : is_valid_entry (pyStrip a) with
        | mk ok msg =>
          cases ok with
          | true => exact prev
          | false =>
            dsimp only []
            refine ⟨List.mem_cons_of_mem _ prev.1, ?_⟩
            intro hrep
            by_cases hrc : repairCond msg = true
            · rw [if_pos hrc]
              exact List.mem_cons_of_mem _ (prev.2 hrep)
            · rw [if_neg hrc]
              exact prev.2 hrep

/-! ## Remaining support lemmas -/

theorem splitBytesForSplice_invalid {d : Str} (h : validate_device_id d = false) :
    splitBytesForSplice d = none := by
  unfold splitBytesForSplice
  rw [h]
  simp

/-- `parseStep` on a main-classified line whose key may contain dots: the
value is stored under the key truncated at its first dot. -/
theorem parseStep_general_main {key v : Str} (es : Entries)
    (hkeq : ('=' : Char) ∉ key) (hkS : pyStrip key = key)
    (hinfo : strEndsWith key (str ".info") = false)
    (hkext : strEndsWith key (str ".kext") = false)
    (hv : v ≠ []) (hvS : pyStrip v = v) :
    parseStep es (key ++ '=' :: v) =
      updEntry (if hasKeyE es (key.takeWhile (fun c => c ≠ '.')) then es
                else es ++ [(key.takeWhile (fun c => c ≠ '.'), emptyRec)])
        (key.takeWhile (fun c => c ≠ '.')) (fun r => { r with main := some v }) := by
  have hne : key ++ '=' :: v ≠ [] := by simp
  have hcont : (key ++ '=' :: v).contains '=' = true :=
    strContains_iff.mpr (List.mem_append_right key (List.mem_cons_self _ _))
  simp only [parseStep, pyStrip_main_line hkS hvS hv, hcont,
    splitAtChar_append_cons hkeq, hkS, hvS, hinfo, hkext, hne,
    Bool.true_eq_false, not_true_eq_false, or_self, if_false,
    if_neg hv, Bool.false_eq_true, not_false_eq_true]

/-- `parse_file` of one main-classified line. -/
theorem parse_file_single_main {key v : Str}
    (hkeq : ('=' : Char) ∉ key) (hkS : pyStrip key = key)
    (hknl : ('\n' : Char) ∉ key) (hkcr : ('\r' : Char) ∉ key)
    (hinfo : strEndsWith key (str ".info") = false)
    (hkext : strEndsWith key (str ".kext") = false)
    (hv : v ≠ []) (hvS : pyStrip v = v)
    (hvnl : ('\n' : Char) ∉ v) (hvcr : ('\r' : Char) ∉ v) :
    parse_file (key ++ '=' :: v) =
      [(key.takeWhile (fun c => c ≠ '.'), ⟨some v, none, none⟩)] := by
  have hnl : ('\n' : Char) ∉ key ++ '=' :: v := by
    intro hm
    rcases List.mem_append.mp hm with hh | hh
    · exact hknl hh
    · rcases List.mem_cons.mp hh with hh2 | hh2
      · exact absurd hh2 (by decide)
      · exact hvnl hh2
  have hcr : ('\r' : Char) ∉ key ++ '=' :: v := by
    intro hm
    rcases List.mem_append.mp hm with hh | hh
    · exact hkcr hh
    · rcases List.mem_cons.mp hh with hh2 | hh2
      · exact absurd hh2 (by decide)
      · exact hvcr hh2
  unfold parse_file
  rw [splitLines, normNL_eq_self hcr, pySplit_of_not_mem hnl]
  rw [List.foldl_cons, List.foldl_nil]
  rw [parseStep_general_main [] hkeq hkS hinfo hkext hv hvS]
  rw [show hasKeyE [] (key.takeWhile (fun c => c ≠ '.')) = false from rfl]
  simp only [Bool.false_eq_true, if_false, List.nil_append]
  rw [show ([(key.takeWhile (fun c => c ≠ '.'), emptyRec)] : Entries) =
        [] ++ [(key.takeWhile (fun c => c ≠ '.'), emptyRec)] by simp]
  rw [updEntry_append_singleton (by simp [entKeys])]
  simp [emptyRec]

/-! ## Claim theorems -/

/-- C1: for the ID-keyed resolver, with database entries `1002&FFFF`,
`1002&67FF` and `1002&67DF`, query `1002&67DF` resolves `exact`, `1002&67AA`
resolves `fuzzy`, `1002&9999` resolves `wildcard`, and `5555&0000` resolves
none; in general the tiers exact (`VVVV&DDDD`), fuzzy (`VVVV&DDFF`), wildcard
(`VVVV&FFFF`) are consulted in that fixed order and the first whose key is
present in the status map determines the result. -/
theorem C1_matchresolver_tier_precedence :
    ((get_support_info_with_multimatch (str "1002&67DF")
        [(str "1002&67DF", str "1"), (str "1002&67FF", str "1"),
         (str "1002&FFFF", str "1")] [] [] false).map MatchTuple.kind =
        some (some MatchKind.exact) ∧
     (get_support_info_with_multimatch (str "1002&67AA")
        [(str "1002&67DF", str "1"), (str "1002&67FF", str "1"),
         (str "1002&FFFF", str "1")] [] [] false).map MatchTuple.kind =
        some (some MatchKind.fuzzy) ∧
     (get_support_info_with_multimatch (str "1002&9999")
        [(str "1002&67DF", str "1"), (str "1002&67FF", str "1"),
         (str "1002&FFFF", str "1")] [] [] false).map MatchTuple.kind =
        some (some MatchKind.wildcard) ∧
     (get_support_info_with_multimatch (str "5555&0000")
        [(str "1002&67DF", str "1"), (str "1002&67FF", str "1"),
         (str "1002&FFFF", str "1")] [] [] false).map MatchTuple.kind =
        some (none : Option MatchKind)) ∧
    (∀ (support details kext : Dict) (v d st : Str),
        ('&' : Char) ∉ v → ('&' : Char) ∉ d →
        dGet support (v ++ '&' :: d) = some st →
        (get_support_info_with_multimatch (v ++ '&' :: d) support details kext
            false).map MatchTuple.kind = some (some MatchKind.exact)) ∧
    (∀ (support details kext : Dict) (v d st : Str),
        ('&' : Char) ∉ v → ('&' : Char) ∉ d →
        dGet support (v ++ '&' :: d) = none →
        dGet support (v ++ '&' :: pyTake 2 d ++ str "FF") = some st →
        (get_support_info_with_multimatch (v ++ '&' :: d) support details kext
            false).map MatchTuple.kind = some (some MatchKind.fuzzy)) ∧
    (∀ (support details kext : Dict) (v d st : Str),
        ('&' : Char) ∉ v → ('&' : Char) ∉ d →
        dGet support (v ++ '&' :: d) = none →
        dGet support (v ++ '&' :: pyTake 2 d ++ str "FF") = none →
        dGet support (v ++ str "&FFFF") = some st →
        (get_support_info_with_multimatch (v ++ '&' :: d) support details kext
            false).map MatchTuple.kind = some (some MatchKind.wildcard)) ∧
    (∀ (support details kext : Dict) (v d : Str),
        ('&' : Char) ∉ v → ('&' : Char) ∉ d →
        dGet support (v ++ '&' :: d) = none →
        dGet support (v ++ '&' :: pyTake 2 d ++ str "FF") = none →
        dGet support (v ++ str "&FFFF") = none →
        (get_support_info_with_multimatch (v ++ '&' :: d) support details kext
            false).map MatchTuple.kind = some (none : Option MatchKind)) := by
  refine ⟨⟨by decide, by decide, by decide, by decide⟩, ?_, ?_, ?_, ?_⟩
  · intro support details kext v d st hv hd hex
    have hq : v ++ '&' :: d ≠ [] := by simp
    have hamp : (v ++ '&' :: d).contains '&' = true :=
      strContains_iff.mpr (List.mem_append_right _ (List.mem_cons_self _ _))
    rw [multimatch_id_exact (pySplit_pair hv hd) hq hamp hex]
    rfl
  · intro support details kext v d st hv hd hex hfz
    have hq : v ++ '&' :: d ≠ [] := by simp
    have hamp : (v ++ '&' :: d).contains '&' = true :=
      strContains_iff.mpr (List.mem_append_right _ (List.mem_cons_self _ _))
    rw [multimatch_id_fuzzy (pySplit_pair hv hd) hq hamp hex hfz]
    rfl
  · intro support details kext v d st hv hd hex hfz hwc
    have hq : v ++ '&' :: d ≠ [] := by simp
    have hamp : (v ++ '&' :: d).contains '&' = true :=
      strContains_iff.mpr (List.mem_append_right _ (List.mem_cons_self _ _))
    rw [multimatch_id_wildcard (pySplit_pair hv hd) hq hamp hex hfz hwc]
    rfl
  · intro support details kext v d hv hd hex hfz hwc
    have hq : v ++ '&' :: d ≠ [] := by simp
    have hamp : (v ++ '&' :: d).contains '&' = true :=
      strContains_iff.mpr (List.mem_append_right _ (List.mem_cons_self _ _))
    rw [multimatch_id_none (pySplit_pair hv hd) hq hamp hex hfz hwc]
    rfl

/-- C1 witness: the general tier statements applied to a concrete database. -/
theorem C1_matchresolver_tier_precedence_witness :
    (get_support_info_with_multimatch (str "AAAA" ++ '&' :: str "BBBB")
        [(str "AAAA" ++ '&' :: str "BBBB", str "1")] [] [] false).map
        MatchTuple.kind = some (some MatchKind.exact) ∧
    (get_support_info_with_multimatch (str "AAAA" ++ '&' :: str "BBBB")
        [(str "AAAA" ++ '&' :: pyTake 2 (str "BBBB") ++ str "FF", str "0")] [] []
        false).map MatchTuple.kind = some (some MatchKind.fuzzy) :=
  ⟨C1_matchresolver_tier_precedence.2.1 _ [] []
      (str "AAAA") (str "BBBB") (str "1") (by decide) (by decide) (by decide),
   C1_matchresolver_tier_precedence.2.2.1 _ [] []
      (str "AAAA") (str "BBBB") (str "0") (by decide) (by decide) (by decide)
      (by decide)⟩

/-- C2: the documented example round-trips, but numeric re-encoding is not
exact for all byte values: the enumerator pair `0A00` (device byte `0x0A`)
converts to firmware `Pci(0xA,0x0)`, which converts back to `PCI(1000)` —
the firmware-to-enumerator direction re-encodes the bytes in decimal
(`{dev:02d}`) while the forward direction parses them as hexadecimal, so the
round trip is lossy for any byte value `0x0A` or above.  This evaluates the
code at the failing input of the code-bug report. -/
theorem C2_path_round_trip_decimal_bug :
    convert_windows_to_dp (str "PCIROOT(0)#PCI(0100)#PCI(0000)") =
      some (str "PciRoot(0x0)/Pci(0x1,0x0)/Pci(0x0,0x0)") ∧
    convert_dp_to_windows (str "PciRoot(0x0)/Pci(0x1,0x0)/Pci(0x0,0x0)") =
      some (str "PCIROOT(0)#PCI(0100)#PCI(0000)") ∧
    convert_windows_to_dp (str "PCIROOT(0)#PCI(0A00)") =
      some (str "PciRoot(0x0)/Pci(0xA,0x0)") ∧
    convert_dp_to_windows (str "PciRoot(0x0)/Pci(0xA,0x0)") =
      some (str "PCIROOT(0)#PCI(1000)") ∧
    (convert_windows_to_dp (str "PCIROOT(0)#PCI(0A00)")).bind
        convert_dp_to_windows ≠ some (str "PCIROOT(0)#PCI(0A00)") := by
  refine ⟨by decide, by decide, by decide, by decide, by decide⟩

/-- C3 counterexample: on input `A .B=1` (a key with whitespace before its
first dot), `serialize(load(·))` is not a fixed point of a second
`load`/`serialize` round trip: the first round emits `A =1` (base key with a
trailing space), whose reparse strips the key to `A`, so the second round
emits `A=1`. -/
theorem C3_round_trip_counterexample :
    generate_file_content (parse_file (str "A .B=1")) = str "A =1" ∧
    generate_file_content (parse_file (generate_file_content
      (parse_file (str "A .B=1")))) = str "A=1" ∧
    generate_file_content (parse_file (generate_file_content
      (parse_file (str "A .B=1")))) ≠
      generate_file_content (parse_file (str "A .B=1")) := by
  refine ⟨by decide, by decide, by decide⟩

/-- C3 (amended): provided every key of `load(text)` carries no trailing
whitespace (equivalently, no line's key has whitespace before its first
dot), `serialize(load(text))` is a fixed point of a second `load`/`serialize`
round trip; field values and per-key field presence survive exactly and
keys are emitted in insertion order with the fixed per-key line order. -/
theorem C3_round_trip_idempotent_amended (t : Str)
    (h : ∀ p ∈ parse_file t, pyStrip p.1 = p.1) :
    generate_file_content (parse_file (generate_file_content (parse_file t))) =
      generate_file_content (parse_file t) := by
  obtain ⟨hnd, hgood⟩ := parse_file_entInv t
  rw [parse_file_generate (parse_file t)
    (fun p hp => ⟨(hgood p hp).1, h p hp, (hgood p hp).2⟩) hnd]
  exact generate_filterNE _

/-- C3 witness: the amended fixed point at a concrete database text. -/
theorem C3_round_trip_idempotent_amended_witness :
    generate_file_content (parse_file (generate_file_content
      (parse_file (str "1002&67DF=1\n1002&67DF.info=OK\nX=")))) =
      generate_file_content (parse_file (str "1002&67DF=1\n1002&67DF.info=OK\nX=")) :=
  C3_round_trip_idempotent_amended _ (by decide)

/-- C4: `validate` on the three-line input `1002&67D=1`, `BADLINE`,
`1002&67DF=2` reports exactly three errors carrying 1-based line numbers 1,
2, 3 and classifies all three lines as repairable; in general every
violating line is reported with its 1-based number and message, and every
violation whose message falls in the classes missing separator, invalid
identifier shape, or invalid status value is also added to the repair
list. -/
theorem C4_validate_three_errors :
    (validate_file_content (str "1002&67D=1\nBADLINE\n1002&67DF=2") =
      ([(1, msgBadIdStem ++ str ": " ++ str "1002&67D", str "1002&67D=1"),
        (2, msgNoEq, str "BADLINE"),
        (3, msgBadStatus, str "1002&67DF=2")],
       [str "1002&67D=1", str "BADLINE", str "1002&67DF=2"])) ∧
    (repairCond (msgBadIdStem ++ str ": " ++ str "1002&67D") = true ∧
     repairCond msgNoEq = true ∧ repairCond msgBadStatus = true) ∧
    (∀ (content : Str) (i : Nat) (h : i < (splitLines content).length) (res : Str),
      pyStrip ((splitLines content).get ⟨i, h⟩) ≠ [] →
      is_valid_entry (pyStrip ((splitLines content).get ⟨i, h⟩)) = (false, res) →
        ((1 + i, res, pyStrip ((splitLines content).get ⟨i, h⟩)) ∈
            (validate_file_content content).1 ∧
         (repairCond res = true →
           pyStrip ((splitLines content).get ⟨i, h⟩) ∈
             (validate_file_content content).2))) := by
  refine ⟨by decide, ⟨by decide, by decide, by decide⟩, ?_⟩
  intro content i h res hne hval
  exact validateLines_mem (splitLines content) 1 i h res hne hval

/-- C4 witness: the general reporting statement applied to the claim's own
second line. -/
theorem C4_validate_three_errors_witness :
    (1 + 1, msgNoEq,
      pyStrip ((splitLines (str "1002&67D=1\nBADLINE\n1002&67DF=2")).get
        ⟨1, by decide⟩)) ∈
      (validate_file_content (str "1002&67D=1\nBADLINE\n1002&67DF=2")).1 :=
  (C4_validate_three_errors.2.2 (str "1002&67D=1\nBADLINE\n1002&67DF=2") 1
    (by decide) msgNoEq (by decide) (by decide)).1

/-- C5 counterexample: with database entry `1002&67FF`, the fuzzy-tier
resolution of query `1002&67AA` returns the query itself — not the fuzzy
database key `1002&67FF` — in the identifier field of the result. -/
theorem C5_matchedKey_counterexample :
    get_support_info_with_multimatch (str "1002&67AA")
        [(str "1002&67FF", str "1")] [] [] false =
      some ⟨some (str "1"), str "1002&67AA", str "未知(模糊匹配)", str "无",
            some MatchKind.fuzzy⟩ ∧
    str "1002&67AA" ≠ str "1002&67FF" := by
  refine ⟨by decide, by decide⟩

/-- C5 (amended): the identifier field of every resolution result is the
query itself — returned verbatim in the ID-keyed family and upper-cased in
the name-keyed family — never the database key that produced a fuzzy or
wildcard hit. -/
theorem C5_matchedKey_amended :
    (∀ (q : Str) (support details kext : Dict), q ≠ [] →
      ∀ t : MatchTuple,
        get_support_info_with_multimatch q support details kext false = some t →
          t.ident = q) ∧
    (∀ (q : Str) (support details kext : Dict),
      ∀ t : MatchTuple,
        get_support_info_with_multimatch q support details kext true = some t →
          t.ident = pyUpper q) :=
  ⟨fun _ support details kext hq => multimatch_id_ident support details kext hq,
   fun _ support details kext => multimatch_name_ident support details kext⟩

/-- C5 witness: the amended statement applied to a concrete fuzzy hit. -/
theorem C5_matchedKey_amended_witness :
    (MatchTuple.mk (some (str "1")) (str "1002&67AA") (str "未知(模糊匹配)")
        (str "无") (some MatchKind.fuzzy)).ident = str "1002&67AA" :=
  C5_matchedKey_amended.1 (str "1002&67AA") [(str "1002&67FF", str "1")] [] []
    (by decide) _ (by decide)

/-- C6 counterexample: the input `"67df\n"` is not exactly four hex digits
(it has five characters), yet the identifier check accepts it — Python's
`$` matches just before a single trailing newline — and the splice
succeeds, producing the same byte literals as for `"67df"`.  So "applied to
any input that is not exactly 4 hex digits it fails with
MalformedIdentifier" is false of the code. -/
theorem C6_trailing_newline_counterexample :
    (str "67df\n").length ≠ 4 ∧
    validate_device_id (str "67df\n") = true ∧
    splitBytesForSplice (str "67df\n") = some (str "0xdf", str "0x67") := by
  refine ⟨by decide, by decide, by decide⟩

/-- C6 (amended): `splitBytesForSplice` on the device half `67DF` yields the
high-byte literal `0xdf` (value `0xDF`, from the second hex pair) and the
low-byte literal `0x67` (value `0x67`, from the first pair) in swapped
order; it fails (the builder rejects the identifier and returns without
splicing) exactly on the inputs the `^[0-9a-fA-F]{4}$` check rejects — any
input that is not four hex digits optionally followed by one trailing
newline.  `"6"` fails; `"67df\n"` is accepted and spliced as if
stripped. -/
theorem C6_splitBytesForSplice_amended :
    splitBytesForSplice (str "67DF") = some (str "0xdf", str "0x67") ∧
    (splitBytesForSplice (str "67DF")).map
        (fun p => (hexLiteralVal p.1, hexLiteralVal p.2)) =
      some (some 0xDF, some 0x67) ∧
    splitBytesForSplice (str "6") = none ∧
    splitBytesForSplice (str "67df\n") = some (str "0xdf", str "0x67") ∧
    (∀ d : Str, validate_device_id d = false → splitBytesForSplice d = none) := by
  refine ⟨by decide, by decide, by decide, by decide, ?_⟩
  intro d h
  exact splitBytesForSplice_invalid h

/-- C6 witness: the failure statement at a five-character input that is not
four hex digits plus a trailing newline. -/
theorem C6_splitBytesForSplice_amended_witness :
    splitBytesForSplice (str "12345") = none :=
  C6_splitBytesForSplice_amended.2.2.2.2 (str "12345") (by decide)

/-- C7 counterexample: a line beginning with `#` that contains `=` is not
ignored by the lenient loader — `# A=1` contributes the entry `# A ↦ 1` to
the status map. -/
theorem C7_comment_line_counterexample :
    load_support_info (str "# A=1") =
      ⟨[(str "# A", str "1")], [], []⟩ ∧
    dGet (load_support_info (str "# A=1")).support (str "# A") =
      some (str "1") := by
  refine ⟨by decide, by decide⟩

/-- C7 (amended): during lenient load, blank lines and lines without `=` —
including comment lines beginning with `#` that contain no `=` — contribute
nothing to any of the three maps; a `#` line that contains `=` is parsed as
an ordinary entry. -/
theorem C7_lenient_load_amended (m : SupportMaps) (rawLine : Str)
    (h : pyStrip rawLine = [] ∨ ('=' : Char) ∉ pyStrip rawLine) :
    loadLine m rawLine = m :=
  loadLine_skip h

/-- C7 witness: a blank line and a plain comment line leave the maps
unchanged. -/
theorem C7_lenient_load_amended_witness :
    loadLine emptyMaps (str "   ") = emptyMaps ∧
    loadLine ⟨[(str "A", str "1")], [], []⟩ (str "# comment") =
      ⟨[(str "A", str "1")], [], []⟩ :=
  ⟨C7_lenient_load_amended emptyMaps (str "   ") (by decide),
   C7_lenient_load_amended ⟨[(str "A", str "1")], [], []⟩ (str "# comment")
     (by decide)⟩

/-- C8 counterexample: ID-keyed lookup performs no case normalization on
the query: against the database loaded from `1002&67DF=1`, the lowercase
query `1002&67df` resolves to no match, while the uppercased query
`1002&67DF` resolves exact — so resolution does not equal resolution of the
uppercased query. -/
theorem C8_lowercase_query_counterexample :
    get_support_info_with_multimatch (str "1002&67df")
        (load_support_info (str "1002&67DF=1")).support [] [] false =
      some ⟨none, str "1002&67df", str "未知", str "无", none⟩ ∧
    get_support_info_with_multimatch (str "1002&67DF")
        (load_support_info (str "1002&67DF=1")).support [] [] false =
      some ⟨some (str "1"), str "1002&67DF", str "未知", str "无",
            some MatchKind.exact⟩ ∧
    (get_support_info_with_multimatch (str "1002&67df")
        (load_support_info (str "1002&67DF=1")).support [] [] false).map
        MatchTuple.status ≠
      (get_support_info_with_multimatch (pyUpper (str "1002&67df"))
        (load_support_info (str "1002&67DF=1")).support [] [] false).map
        MatchTuple.status := by
  refine ⟨by decide, by decide, by decide⟩

/-- C8 (amended): identifier case is normalized to uppercase on storage —
every key of every map built by the loader is uppercase-fixed — but
ID-keyed lookup uses the query verbatim, so a lowercase query does not
match an entry stored as `1002&67DF=1`. -/
theorem C8_storage_upper_amended (t : Str) :
    ∀ p ∈ (load_support_info t).support, pyUpper p.1 = p.1 :=
  (load_support_info_mapsUpper t).1

/-- C8 witness: storage normalization at a concrete lowercase input line. -/
theorem C8_storage_upper_amended_witness :
    pyUpper (str "1002&67DF") = str "1002&67DF" :=
  C8_storage_upper_amended (str "1002&67df=1") (str "1002&67DF", str "1")
    (by decide)

/-- C9 counterexample: a malformed query that fails the `VVVV&DDDD` shape
check but contains `&` does consult the database: query `1002&67` (device
half too short) against a database holding `1002&67FF` resolves to a fuzzy
hit with status `1`, not to the none/unknown result. -/
theorem C9_malformed_query_counterexample :
    idShape (str "1002&67") = false ∧
    get_support_info_with_multimatch (str "1002&67")
        [(str "1002&67FF", str "1")] [] [] false =
      some ⟨some (str "1"), str "1002&67", str "未知(模糊匹配)", str "无",
            some MatchKind.fuzzy⟩ := by
  refine ⟨by decide, by decide⟩

/-- C9 (amended): the ID-keyed resolver short-circuits to the none/unknown
result — status none, detail "unknown", driver "none", matchKind none,
identifier `N/A` for the empty query — exactly when the query is empty or
contains no `&`; other malformed queries are still looked up. -/
theorem C9_shortcircuit_amended (q : Str) (support details kext : Dict)
    (h : q = [] ∨ ¬ q.contains '&' = true) :
    get_support_info_with_multimatch q support details kext false =
      some ⟨none, if q = [] then str "N/A" else q, str "未知", str "无", none⟩ :=
  multimatch_id_shortcircuit support details kext h

/-- C9 witness: the short-circuit at the empty query and at a query without
`&`, over a non-empty database. -/
theorem C9_shortcircuit_amended_witness :
    get_support_info_with_multimatch [] [(str "X", str "1")] [] [] false =
      some ⟨none, if ([] : Str) = [] then str "N/A" else [], str "未知", str "无",
            none⟩ ∧
    get_support_info_with_multimatch (str "ABCD") [(str "ABCD", str "1")] [] []
        false =
      some ⟨none, if str "ABCD" = [] then str "N/A" else str "ABCD", str "未知",
            str "无", none⟩ :=
  ⟨C9_shortcircuit_amended [] [(str "X", str "1")] [] [] (by decide),
   C9_shortcircuit_amended (str "ABCD") [(str "ABCD", str "1")] [] []
     (by decide)⟩

/-- C10: during structured parse, a line whose key contains a dot but does
not end in `.info` or `.kext` is recorded as the main status field of the
key truncated at its first dot — `FOO.BAR=1` sets the status of record
`FOO` to `1`, and in general `key=value` is stored under
`key.split('.')[0]` — and no key of the parse result ever contains a dot,
so free-text keys containing a dot do not survive load under their own
name. -/
theorem C10_dot_key_truncation :
    (parse_file (str "FOO.BAR=1") =
      [(str "FOO", ⟨some (str "1"), none, none⟩)]) ∧
    (∀ (key v : Str), ('=' : Char) ∉ key → pyStrip key = key →
      ('\n' : Char) ∉ key → ('\r' : Char) ∉ key →
      strEndsWith key (str ".info") = false →
      strEndsWith key (str ".kext") = false →
      v ≠ [] → pyStrip v = v → ('\n' : Char) ∉ v → ('\r' : Char) ∉ v →
      parse_file (key ++ '=' :: v) =
        [(key.takeWhile (fun c => c ≠ '.'), ⟨some v, none, none⟩)]) ∧
    (∀ (t : Str) (p : Str × DRec), p ∈ parse_file t → ('.' : Char) ∉ p.1) := by
  refine ⟨by decide, ?_, ?_⟩
  · intro key v h1 h2 h3 h4 h5 h6 h7 h8 h9 h10
    exact parse_file_single_main h1 h2 h3 h4 h5 h6 h7 h8 h9 h10
  · intro t p hp
    exact ((parse_file_entInv t).2 p hp).1.1

/-- C10 witness: the general truncation statement at the claim's own line. -/
theorem C10_dot_key_truncation_witness :
    parse_file (str "FOO.BAR" ++ '=' :: str "1") =
      [((str "FOO.BAR").takeWhile (fun c => c ≠ '.'),
        ⟨some (str "1"), none, none⟩)] :=
  C10_dot_key_truncation.2.1 (str "FOO.BAR") (str "1") (by decide) (by decide)
    (by decide) (by decide) (by decide) (by decide) (by decide) (by decide)
    (by decide) (by decide)

end SimpleToolkit
